import Mathlib

/-!
# Perf metrics (`drivers/soc/google/vh/kernel/metrics.c`)

A shallow embedding of the resume-latency histogram and of the long-IRQ
trackers, followed by the properties established about them.

Conventions of the embedding.

* Machine integers are `Int`s; results are wrapped with `wrap_s64`, `wrap_u64`
  or `wrap_int` where the C code stores into a 64-bit or `int` object.
* `ktime_get()` is an input of every handler (`now`, in nanoseconds), and
  `raw_smp_processor_id()` is the input `cpu`.
* C arrays are maps from a cell index to the cell's content.  A
  two-dimensional table `t[cpu][line]` with rows of width `w` is stored
  row-major, so `t[cpu][line]` is the cell `cpu * w + line`.  Indices that the
  code does not check reach cells outside the declared bounds; the members of
  `long_irq_stat` that share the storage of such a cell appear in the
  object-level stores `hook_softirq_begin_object` and `hook_irq_begin_object`.
* `metrics.h` is not among the sources; its macro constants are the fields of
  `Consts`.
-/

namespace Metrics

/-! ## Machine arithmetic -/

/-- Two's-complement wrap of an integer into the range of `s64`. -/
def wrap_s64 (x : Int) : Int := (x + 2 ^ 63) % 2 ^ 64 - 2 ^ 63

/-- Wrap of an integer into the range of `u64`. -/
def wrap_u64 (x : Int) : Int := x % 2 ^ 64

/-- Two's-complement wrap of an integer into the range of a C `int`. -/
def wrap_int (x : Int) : Int := (x + 2 ^ 31) % 2 ^ 32 - 2 ^ 31

/-- `ktime_sub(lhs, rhs)`: subtraction of two `ktime_t` (`s64`) values. -/
def ktime_sub (lhs rhs : Int) : Int := wrap_s64 (lhs - rhs)

/-- `ktime_to_ms(kt)`: `kt / NSEC_PER_MSEC`, C division (truncating). -/
def ktime_to_ms (kt : Int) : Int := Int.tdiv kt 1000000

/-- `ktime_to_us(kt)`: `kt / NSEC_PER_USEC`, C division (truncating). -/
def ktime_to_us (kt : Int) : Int := Int.tdiv kt 1000

/-- `ktime_ms_delta(later, earlier)`. -/
def ktime_ms_delta (later earlier : Int) : Int := ktime_to_ms (ktime_sub later earlier)

/-! ## Constants of `metrics.h` -/

/-- The macro constants used by `metrics.c`.  They are declared in `metrics.h`
(and, for `NR_SOFTIRQS`, in the interrupt headers), which are not part of the
sources, so they are parameters here. -/
structure Consts where
  RESUME_LATENCY_STEP_SMALL : Int
  RESUME_LATENCY_STEP_MID : Int
  RESUME_LATENCY_STEP_LARGE : Int
  RESUME_LATENCY_BOUND_SMALL : Int
  RESUME_LATENCY_BOUND_MID : Int
  RESUME_LATENCY_BOUND_MAX : Int
  LATENCY_CNT_SMALL : Int
  LATENCY_CNT_MID : Int
  LATENCY_CNT_LARGE : Int
  RESUME_LATENCY_ARR_SIZE : Int
  NR_SOFTIRQS : Nat
  MAX_IRQ_NUM : Int

/-- The relations between the histogram constants: ordered positive bounds,
positive steps, every count equal to its region width divided by its step with
no remainder, the array size one more than the three counts, and the array
size an `int` (it is printed with `%d` and compared with an `int` index). -/
def Consts.WellFormed (K : Consts) : Prop :=
  0 < K.RESUME_LATENCY_BOUND_SMALL ∧
  K.RESUME_LATENCY_BOUND_SMALL < K.RESUME_LATENCY_BOUND_MID ∧
  K.RESUME_LATENCY_BOUND_MID < K.RESUME_LATENCY_BOUND_MAX ∧
  0 < K.RESUME_LATENCY_STEP_SMALL ∧
  0 < K.RESUME_LATENCY_STEP_MID ∧
  0 < K.RESUME_LATENCY_STEP_LARGE ∧
  K.LATENCY_CNT_SMALL =
    Int.tdiv K.RESUME_LATENCY_BOUND_SMALL K.RESUME_LATENCY_STEP_SMALL ∧
  K.LATENCY_CNT_MID =
    Int.tdiv (K.RESUME_LATENCY_BOUND_MID - K.RESUME_LATENCY_BOUND_SMALL)
      K.RESUME_LATENCY_STEP_MID ∧
  K.LATENCY_CNT_LARGE =
    Int.tdiv (K.RESUME_LATENCY_BOUND_MAX - K.RESUME_LATENCY_BOUND_MID)
      K.RESUME_LATENCY_STEP_LARGE ∧
  Int.tmod K.RESUME_LATENCY_BOUND_SMALL K.RESUME_LATENCY_STEP_SMALL = 0 ∧
  Int.tmod (K.RESUME_LATENCY_BOUND_MID - K.RESUME_LATENCY_BOUND_SMALL)
    K.RESUME_LATENCY_STEP_MID = 0 ∧
  Int.tmod (K.RESUME_LATENCY_BOUND_MAX - K.RESUME_LATENCY_BOUND_MID)
    K.RESUME_LATENCY_STEP_LARGE = 0 ∧
  K.RESUME_LATENCY_ARR_SIZE =
    K.LATENCY_CNT_SMALL + K.LATENCY_CNT_MID + K.LATENCY_CNT_LARGE + 1 ∧
  K.RESUME_LATENCY_ARR_SIZE < 2 ^ 31

instance (K : Consts) : Decidable K.WellFormed := by
  unfold Consts.WellFormed
  infer_instance

/-- A concrete choice of the constants, used to evaluate the model. -/
def sampleConsts : Consts where
  RESUME_LATENCY_STEP_SMALL := 10
  RESUME_LATENCY_STEP_MID := 50
  RESUME_LATENCY_STEP_LARGE := 100
  RESUME_LATENCY_BOUND_SMALL := 250
  RESUME_LATENCY_BOUND_MID := 500
  RESUME_LATENCY_BOUND_MAX := 1000
  LATENCY_CNT_SMALL := 25
  LATENCY_CNT_MID := 5
  LATENCY_CNT_LARGE := 5
  RESUME_LATENCY_ARR_SIZE := 36
  NR_SOFTIRQS := 10
  MAX_IRQ_NUM := 1024

/-! ## Resume latency histogram -/

/-- The value stored into `int resume_latency_index` by lines 55-66 of
`vendor_hook_resume_end` for the duration `resume_latency_msec`. -/
def resume_latency_index (K : Consts) (resume_latency_msec : Int) : Int :=
  wrap_int
    (if resume_latency_msec < K.RESUME_LATENCY_BOUND_SMALL then
      Int.tdiv resume_latency_msec K.RESUME_LATENCY_STEP_SMALL
    else if resume_latency_msec < K.RESUME_LATENCY_BOUND_MID then
      Int.tdiv (resume_latency_msec - K.RESUME_LATENCY_BOUND_SMALL)
        K.RESUME_LATENCY_STEP_MID + K.LATENCY_CNT_SMALL
    else if resume_latency_msec < K.RESUME_LATENCY_BOUND_MAX then
      Int.tdiv (resume_latency_msec - K.RESUME_LATENCY_BOUND_MID)
        K.RESUME_LATENCY_STEP_LARGE + K.LATENCY_CNT_SMALL + K.LATENCY_CNT_MID
    else
      K.LATENCY_CNT_SMALL + K.LATENCY_CNT_MID + K.LATENCY_CNT_LARGE)

/-- Modelled from the spec: the declaration of `struct resume_latency` (the type
of `resume_latency_stats`) is in `metrics.h`, which is not among the sources.
The fields are those `metrics.c` accesses.  The spin lock has no content in a
sequential run and is left out.  `resume_count` maps a cell index to its 64-bit
counter (printed with `%lld`); the declared cells are
`0 .. RESUME_LATENCY_ARR_SIZE - 1`.  `resume_latency_max_ms` is printed with
`%lld` and `resume_latency_sum_ms` with `%llu`. -/
structure resume_latency where
  resume_start : Int
  resume_end : Int
  resume_count : Int → Int
  resume_latency_max_ms : Int
  resume_latency_sum_ms : Int

/-- Modelled from the spec: the declaration of `struct long_irq` (the type of
`long_irq_stat`) is in `metrics.h`, which is not among the sources.  The fields
are those `metrics.c` accesses; the start tables are sized "max core count x
max line count", so they are row-major with rows of `NR_SOFTIRQS` and of
`MAX_IRQ_NUM` cells: `softirq_start[cpu][vec_nr]` is the cell
`cpu * NR_SOFTIRQS + vec_nr` and `irq_start[cpu][irq]` is the cell
`cpu * MAX_IRQ_NUM + irq`.  The two counters are `atomic64_t`. -/
structure long_irq where
  softirq_start : Int → Int
  irq_start : Int → Int
  softirq_end : Int
  irq_end : Int
  long_softirq_count : Int
  long_irq_count : Int
  long_softirq_arr : Int → Int
  long_irq_arr : Int → Int
  long_softirq_threshold : Int
  long_irq_threshold : Int
  display_warning : Bool

/-- The mutable globals of `metrics.c`, together with the number of `WARN`
diagnostics emitted so far (`warn_emitted`, the only trace of the console that
the properties below refer to). -/
structure Globals where
  resume_latency_stats : resume_latency
  long_irq_stat : long_irq
  warn_emitted : Nat

/-- Store `v` into the cell `i` of an array. -/
def store (a : Int → Int) (i v : Int) : Int → Int :=
  fun j => if j = i then v else a j

/-- Sum of the cells `0 .. n - 1` of an array. -/
def cells_sum (a : Int → Int) : Nat → Int
  | 0 => 0
  | n + 1 => cells_sum a n + a (n : Int)

/-- Sum of all declared `resume_count[]` entries. -/
def resume_count_total (K : Consts) (r : resume_latency) : Int :=
  cells_sum r.resume_count K.RESUME_LATENCY_ARR_SIZE.toNat

/-- `vendor_hook_resume_begin`; `now` is the value of `ktime_get()`. -/
def vendor_hook_resume_begin (now : Int) (g : Globals) : Globals :=
  { g with resume_latency_stats := { g.resume_latency_stats with resume_start := now } }

/-- `vendor_hook_resume_end`; `now` is the value of `ktime_get()`.  The
`pr_info` line only prints. -/
def vendor_hook_resume_end (K : Consts) (now : Int) (g : Globals) : Globals :=
  let r := g.resume_latency_stats
  if r.resume_start = r.resume_end then g
  else
    let r1 := { r with resume_end := now }
    let resume_latency_msec := ktime_ms_delta r1.resume_end r1.resume_start
    if resume_latency_msec ≤ 0 then { g with resume_latency_stats := r1 }
    else
      let resume_latency_index := resume_latency_index K resume_latency_msec
      let r2 : resume_latency :=
        { r1 with
          resume_count :=
            store r1.resume_count resume_latency_index
              (wrap_s64 (r1.resume_count resume_latency_index + 1))
          resume_latency_sum_ms := wrap_u64 (r1.resume_latency_sum_ms + resume_latency_msec)
          resume_latency_max_ms := max r1.resume_latency_max_ms resume_latency_msec }
      { g with resume_latency_stats := { r2 with resume_start := r2.resume_end } }

/-- What one call of `vendor_hook_resume_end` measures: `none` when it leaves
at the first guard (line 45) before measuring anything, otherwise the value of
`resume_latency_msec` computed at line 48. -/
def resume_end_measured (now : Int) (g : Globals) : Option Int :=
  if g.resume_latency_stats.resume_start = g.resume_latency_stats.resume_end then none
  else some (ktime_ms_delta now g.resume_latency_stats.resume_start)

/-- A resume cycle: the clock value at the begin hook and at the end hook. -/
structure resume_cycle where
  begin_now : Int
  end_now : Int

/-- The begin hook followed by the end hook of one cycle. -/
def run_resume_cycle (K : Consts) (c : resume_cycle) (g : Globals) : Globals :=
  vendor_hook_resume_end K c.end_now (vendor_hook_resume_begin c.begin_now g)

/-- The cycles of a list, one after another. -/
def run_resume_cycles (K : Consts) : List resume_cycle → Globals → Globals
  | [], g => g
  | c :: cs, g => run_resume_cycles K cs (run_resume_cycle K c g)

/-- The measurements of the end hooks of a list of cycles run from `g`. -/
def resume_cycles_measured (K : Consts) : List resume_cycle → Globals → List (Option Int)
  | [], _ => []
  | c :: cs, g =>
    resume_end_measured c.end_now (vendor_hook_resume_begin c.begin_now g) ::
      resume_cycles_measured K cs (run_resume_cycle K c g)

/-- The state of `resume_latency_stats` at load time (static storage is
zero-initialised). -/
def resume_latency.init : resume_latency where
  resume_start := 0
  resume_end := 0
  resume_count := fun _ => 0
  resume_latency_max_ms := 0
  resume_latency_sum_ms := 0

/-- The state of `long_irq_stat` at load time (static storage is
zero-initialised; the two thresholds are set later by `perf_metrics_init`). -/
def long_irq.init : long_irq where
  softirq_start := fun _ => 0
  irq_start := fun _ => 0
  softirq_end := 0
  irq_end := 0
  long_softirq_count := 0
  long_irq_count := 0
  long_softirq_arr := fun _ => 0
  long_irq_arr := fun _ => 0
  long_softirq_threshold := 0
  long_irq_threshold := 0
  display_warning := false

/-- The globals at load time. -/
def Globals.init : Globals where
  resume_latency_stats := resume_latency.init
  long_irq_stat := long_irq.init
  warn_emitted := 0

/-- `resume_latency_metrics_store`: the new globals and the returned byte
count.  The `memset` clears the declared cells of `resume_count`. -/
def resume_latency_metrics_store (K : Consts) (count : Nat) (g : Globals) : Globals × Nat :=
  ({ g with
      resume_latency_stats :=
        { g.resume_latency_stats with
          resume_latency_max_ms := 0
          resume_latency_sum_ms := 0
          resume_count := fun j =>
            if 0 ≤ j ∧ j < K.RESUME_LATENCY_ARR_SIZE then 0
            else g.resume_latency_stats.resume_count j } },
    count)

/-! ## Long IRQ trackers -/

/-- `cmpxchg64(&a[i], old, new)` with no other writer: the array afterwards and
the value returned (the content of the cell before the call). -/
def cmpxchg64 (a : Int → Int) (i old new : Int) : (Int → Int) × Int :=
  (if a i = old then store a i new else a, a i)

/-- `hook_softirq_begin`; `cpu` is `raw_smp_processor_id()`, `now` is
`ktime_get()`.  The store is not guarded.  The cell written is counted from the
start of the table; for a vector out of range it lies past the row or past the
table, and the other members of `long_irq_stat` stored there are not part of
this record (`hook_softirq_begin_object` gives the store on the whole
object). -/
def hook_softirq_begin (K : Consts) (cpu vec_nr : Nat) (now : Int) (g : Globals) : Globals :=
  { g with
    long_irq_stat :=
      { g.long_irq_stat with
        softirq_start :=
          store g.long_irq_stat.softirq_start ((cpu : Int) * K.NR_SOFTIRQS + vec_nr) now } }

/-- The value of `irq_usec` computed at lines 90-92 of `hook_softirq_end`. -/
def softirq_usec (K : Consts) (cpu vec_nr : Nat) (now : Int) (g : Globals) : Int :=
  ktime_to_us (ktime_sub now (g.long_irq_stat.softirq_start ((cpu : Int) * K.NR_SOFTIRQS + vec_nr)))

/-- `hook_softirq_end`; `vec_nr` is an `unsigned int`.  Run without
interference the `cmpxchg64` at line 102 finds the value loaded at line 99 and
returns it, so the body of the `do`-`while` runs once. -/
def hook_softirq_end (K : Consts) (cpu vec_nr : Nat) (now : Int) (g : Globals) : Globals :=
  if vec_nr ≥ K.NR_SOFTIRQS then g
  else
    let l0 := { g.long_irq_stat with softirq_end := now }
    let irq_usec :=
      ktime_to_us (ktime_sub l0.softirq_end
        (l0.softirq_start ((cpu : Int) * K.NR_SOFTIRQS + vec_nr)))
    let l1 :=
      if irq_usec ≥ l0.long_softirq_threshold then
        { l0 with long_softirq_count := wrap_s64 (l0.long_softirq_count + 1) }
      else l0
    let warn :=
      if irq_usec ≥ l0.long_softirq_threshold ∧ l0.display_warning = true then
        g.warn_emitted + 1
      else g.warn_emitted
    let curr_max_irq := l1.long_softirq_arr vec_nr
    if irq_usec < curr_max_irq then { g with long_irq_stat := l1, warn_emitted := warn }
    else
      { g with
        long_irq_stat :=
          { l1 with
            long_softirq_arr := (cmpxchg64 l1.long_softirq_arr vec_nr curr_max_irq irq_usec).1 }
        warn_emitted := warn }

/-- `hook_irq_begin`; `irq` is an `int`.  The store is not guarded.  The cell
written is counted from the start of the table; for a line out of range it lies
outside the row or outside the table, and the other members of `long_irq_stat`
stored there are not part of this record (`hook_irq_begin_object` gives the
store on the whole object). -/
def hook_irq_begin (K : Consts) (cpu : Nat) (irq : Int) (now : Int) (g : Globals) : Globals :=
  { g with
    long_irq_stat :=
      { g.long_irq_stat with
        irq_start := store g.long_irq_stat.irq_start ((cpu : Int) * K.MAX_IRQ_NUM + irq) now } }

/-- The value of `irq_usec` computed at lines 121-123 of `hook_irq_end`. -/
def irq_usec (K : Consts) (cpu : Nat) (irq : Int) (now : Int) (g : Globals) : Int :=
  ktime_to_us (ktime_sub now (g.long_irq_stat.irq_start ((cpu : Int) * K.MAX_IRQ_NUM + irq)))

/-- `hook_irq_end`; `irq` is an `int` and the only guard is
`irq >= MAX_IRQ_NUM`. -/
def hook_irq_end (K : Consts) (cpu : Nat) (irq : Int) (now : Int) (g : Globals) : Globals :=
  if irq ≥ K.MAX_IRQ_NUM then g
  else
    let l0 := { g.long_irq_stat with irq_end := now }
    let irq_usec :=
      ktime_to_us (ktime_sub l0.irq_end (l0.irq_start ((cpu : Int) * K.MAX_IRQ_NUM + irq)))
    let l1 :=
      if irq_usec ≥ l0.long_irq_threshold then
        { l0 with long_irq_count := wrap_s64 (l0.long_irq_count + 1) }
      else l0
    let warn :=
      if irq_usec ≥ l0.long_irq_threshold ∧ l0.display_warning = true then
        g.warn_emitted + 1
      else g.warn_emitted
    let curr_max_irq := l1.long_irq_arr irq
    if irq_usec < curr_max_irq then { g with long_irq_stat := l1, warn_emitted := warn }
    else
      { g with
        long_irq_stat :=
          { l1 with
            long_irq_arr := (cmpxchg64 l1.long_irq_arr irq curr_max_irq irq_usec).1 }
        warn_emitted := warn }

/-- `modify_softirq_threshold_store`: the new globals and the returned byte
count.  `parsed` is the outcome of `sscanf(buf, "%lld", &new_threshold_us)`:
`none` when nothing was converted (`err == 0`), otherwise the converted
value. -/
def modify_softirq_threshold_store (parsed : Option Int) (count : Nat) (g : Globals) :
    Globals × Nat :=
  match parsed with
  | none => (g, count)
  | some new_threshold_us =>
    if new_threshold_us < 0 then (g, count)
    else
      ({ g with
          long_irq_stat :=
            { g.long_irq_stat with
              long_softirq_threshold := new_threshold_us
              long_softirq_count := 0 } },
        count)

/-- `modify_irq_threshold_store`, with `parsed` as for the soft threshold. -/
def modify_irq_threshold_store (parsed : Option Int) (count : Nat) (g : Globals) :
    Globals × Nat :=
  match parsed with
  | none => (g, count)
  | some new_threshold_us =>
    if new_threshold_us < 0 then (g, count)
    else
      ({ g with
          long_irq_stat :=
            { g.long_irq_stat with
              long_irq_threshold := new_threshold_us
              long_irq_count := 0 } },
        count)

/-- `display_warning_store`; `parsed` is the outcome of
`sscanf(buf, "%d", &display_warn)`. -/
def display_warning_store (parsed : Option Int) (count : Nat) (g : Globals) : Globals × Nat :=
  match parsed with
  | none => (g, count)
  | some display_warn =>
    let g1 :=
      if display_warn = 0 then
        { g with long_irq_stat := { g.long_irq_stat with display_warning := false } }
      else g
    let g2 :=
      if display_warn = 1 then
        { g1 with long_irq_stat := { g1.long_irq_stat with display_warning := true } }
      else g1
    (g2, count)

/-- One call of `hook_softirq_end`: the processor, the vector and the clock. -/
structure softirq_call where
  cpu : Nat
  vec_nr : Nat
  now : Int

/-- One call of `hook_irq_end`: the processor, the line and the clock. -/
structure irq_call where
  cpu : Nat
  irq : Int
  now : Int

/-- The calls of `hook_softirq_end` of a list, one after another. -/
def run_softirq_ends (K : Consts) : List softirq_call → Globals → Globals
  | [], g => g
  | c :: cs, g => run_softirq_ends K cs (hook_softirq_end K c.cpu c.vec_nr c.now g)

/-- The durations measured by the calls of `run_softirq_ends`. -/
def softirq_ends_usec (K : Consts) : List softirq_call → Globals → List Int
  | [], _ => []
  | c :: cs, g =>
    softirq_usec K c.cpu c.vec_nr c.now g ::
      softirq_ends_usec K cs (hook_softirq_end K c.cpu c.vec_nr c.now g)

/-- The calls of `hook_irq_end` of a list, one after another. -/
def run_irq_ends (K : Consts) : List irq_call → Globals → Globals
  | [], g => g
  | c :: cs, g => run_irq_ends K cs (hook_irq_end K c.cpu c.irq c.now g)

/-- The durations measured by the calls of `run_irq_ends`. -/
def irq_ends_usec (K : Consts) : List irq_call → Globals → List Int
  | [], _ => []
  | c :: cs, g =>
    irq_usec K c.cpu c.irq c.now g :: irq_ends_usec K cs (hook_irq_end K c.cpu c.irq c.now g)

/-! ## Bucket ranges printed by `resume_latency_metrics_show` -/

/-- The body of the loop of `resume_latency_metrics_show` for one `index`: the
`s64 lower_bound` it prints and, in the three bounded regions, the
`s64 upper_bound`; the last row prints `inf` and has no upper bound. -/
def resume_latency_bucket_range (K : Consts) (index : Int) : Int × Option Int :=
  if index < K.LATENCY_CNT_SMALL then
    let lower_bound := wrap_s64 (index * K.RESUME_LATENCY_STEP_SMALL)
    (lower_bound, some (wrap_s64 (lower_bound + K.RESUME_LATENCY_STEP_SMALL)))
  else if index < K.LATENCY_CNT_SMALL + K.LATENCY_CNT_MID then
    let lower_bound :=
      wrap_s64 (K.RESUME_LATENCY_BOUND_SMALL +
        K.RESUME_LATENCY_STEP_MID * (index - K.LATENCY_CNT_SMALL))
    (lower_bound, some (wrap_s64 (lower_bound + K.RESUME_LATENCY_STEP_MID)))
  else if index < K.LATENCY_CNT_SMALL + K.LATENCY_CNT_MID + K.LATENCY_CNT_LARGE then
    let lower_bound :=
      wrap_s64 (K.RESUME_LATENCY_BOUND_MID +
        K.RESUME_LATENCY_STEP_LARGE * (index - (K.LATENCY_CNT_SMALL + K.LATENCY_CNT_MID)))
    (lower_bound, some (wrap_s64 (lower_bound + K.RESUME_LATENCY_STEP_LARGE)))
  else
    (wrap_s64 K.RESUME_LATENCY_BOUND_MAX, none)

/-- The rows printed by the loop of `resume_latency_metrics_show`, for
`index = 0 .. RESUME_LATENCY_ARR_SIZE - 1`: lower bound, upper bound (if any)
and the count of the bucket. -/
def resume_latency_metrics_show_rows (K : Consts) (g : Globals) :
    List (Int × Option Int × Int) :=
  (List.range K.RESUME_LATENCY_ARR_SIZE.toNat).map fun index =>
    ((resume_latency_bucket_range K index).1, (resume_latency_bucket_range K index).2,
      g.resume_latency_stats.resume_count index)

/-! ## Initialisation -/

/-- The outcomes of the steps of `perf_metrics_init`: whether
`kobject_create_and_add` returned a folder, and the `int` returned by each
`sysfs_create_group` and `register_trace_*` call (0 on success). -/
structure init_outcomes where
  primary_sysfs_folder : Bool
  resume_latency_group : Int
  irq_group : Int
  early_resume_begin : Int
  resume_end : Int
  softirq_entry : Int
  softirq_exit : Int
  irq_handler_entry : Int
  irq_handler_exit : Int

/-- The errno `EINVAL`. -/
def EINVAL : Int := 22

/-- `perf_metrics_init`: the globals afterwards and the returned `int`.  A step
is attempted only when the steps before it succeeded. -/
def perf_metrics_init (o : init_outcomes) (g : Globals) : Globals × Int :=
  let ret : Int := 0
  if o.primary_sysfs_folder = false then (g, -EINVAL)
  else if o.resume_latency_group ≠ 0 then (g, ret)
  else if o.irq_group ≠ 0 then (g, ret)
  else
    let ret := o.early_resume_begin
    if ret ≠ 0 then (g, ret)
    else
      let ret := o.resume_end
      if ret ≠ 0 then (g, ret)
      else
        let g1 : Globals :=
          { g with
            long_irq_stat :=
              { g.long_irq_stat with
                long_softirq_threshold := 10000
                long_irq_threshold := 500 } }
        let ret := o.softirq_entry
        if ret ≠ 0 then (g1, ret)
        else
          let ret := o.softirq_exit
          if ret ≠ 0 then (g1, ret)
          else
            let ret := o.irq_handler_entry
            if ret ≠ 0 then (g1, ret)
            else
              let ret := o.irq_handler_exit
              if ret ≠ 0 then (g1, ret)
              else (g1, ret)

/-- Whether some attempted step of `perf_metrics_init` fails: a step fails when
no folder is returned or the returned `int` is not 0, and every step before the
first failing one has been attempted. -/
def init_outcomes.some_step_fails (o : init_outcomes) : Bool :=
  o.primary_sysfs_folder = false ∨ o.resume_latency_group ≠ 0 ∨ o.irq_group ≠ 0 ∨
    o.early_resume_begin ≠ 0 ∨ o.resume_end ≠ 0 ∨ o.softirq_entry ≠ 0 ∨
    o.softirq_exit ≠ 0 ∨ o.irq_handler_entry ≠ 0 ∨ o.irq_handler_exit ≠ 0

/-! ## The object `long_irq_stat` -/

/-- Modelled from the spec: the declaration of `struct long_irq` is in
`metrics.h`, which is not among the sources, so the order of its members is a
parameter.  The tables `softirq_start`, `irq_start` and the arrays
`long_softirq_arr`, `long_irq_arr` are members of the one object
`long_irq_stat`, all made of 8-byte values, so the object is a row of 8-byte
cells; `long_irq_layout` gives the cell of the object at which each of the four
begins. -/
structure long_irq_layout where
  softirq_start : Int
  irq_start : Int
  long_softirq_arr : Int
  long_irq_arr : Int

/-- The store of `hook_softirq_begin` (line 79) on the cells of the object
`long_irq_stat`. -/
def hook_softirq_begin_object (K : Consts) (L : long_irq_layout) (cpu vec_nr : Nat)
    (now : Int) (object : Int → Int) : Int → Int :=
  store object (L.softirq_start + ((cpu : Int) * K.NR_SOFTIRQS + vec_nr)) now

/-- The store of `hook_irq_begin` (line 110) on the cells of the object
`long_irq_stat`. -/
def hook_irq_begin_object (K : Consts) (L : long_irq_layout) (cpu : Nat) (irq : Int)
    (now : Int) (object : Int → Int) : Int → Int :=
  store object (L.irq_start + ((cpu : Int) * K.MAX_IRQ_NUM + irq)) now

/-- The value of `long_irq_arr[j]` in the object. -/
def long_irq_arr_at (L : long_irq_layout) (object : Int → Int) (j : Int) : Int :=
  object (L.long_irq_arr + j)

/-! ## The running-maximum loop under interleaving -/

/-- `cmpxchg64` on one cell: the content afterwards and the returned value. -/
def cmpxchg64_cell (cell old new : Int) : Int × Int :=
  (if cell = old then new else cell, cell)

/-- Where a call of an end handler stands in its `do`-`while` loop: about to
load `running_max[line]` (line 99 / 130), about to execute the `cmpxchg64`
with the value it loaded (line 102 / 133), or returned. -/
inductive max_pc where
  | load
  | cas (curr_max_irq : Int)
  | done
  deriving DecidableEq

/-- A call of an end handler in its loop: its measured duration and where it
stands. -/
structure max_call where
  irq_usec : Int
  pc : max_pc
  deriving DecidableEq

/-- One atomic step of a call on the shared cell: the content of the cell
afterwards and the call afterwards.  The load leaves the loop when
`irq_usec < curr_max_irq`; the `cmpxchg64` leaves the loop when it returns
`curr_max_irq` and goes back to the load otherwise. -/
def max_call.step (cell : Int) (t : max_call) : Int × max_call :=
  match t.pc with
  | .load =>
    if t.irq_usec < cell then (cell, { t with pc := .done })
    else (cell, { t with pc := .cas cell })
  | .cas curr_max_irq =>
    let r := cmpxchg64_cell cell curr_max_irq t.irq_usec
    if r.2 ≠ curr_max_irq then (r.1, { t with pc := .load })
    else (r.1, { t with pc := .done })
  | .done => (cell, t)

/-- The shared cell `running_max[line]` and the concurrent calls for the
line. -/
structure max_config where
  cell : Int
  calls : List max_call

/-- The configuration before any call has taken a step. -/
def max_config.start (cell : Int) (ds : List Int) : max_config :=
  { cell := cell, calls := ds.map fun d => { irq_usec := d, pc := .load } }

/-- The call number `i` takes its next atomic step (nothing happens when there
is no such call). -/
def max_config.step (c : max_config) (i : Nat) : max_config :=
  match c.calls[i]? with
  | none => c
  | some t => { cell := (t.step c.cell).1, calls := c.calls.set i (t.step c.cell).2 }

/-- An interleaving: the calls take their steps in the order of the schedule. -/
def max_config.run (c : max_config) (schedule : List Nat) : max_config :=
  schedule.foldl max_config.step c

/-- Whether every call has returned. -/
def max_config.all_done (c : max_config) : Bool :=
  c.calls.all fun t => decide (t.pc = .done)

/-- What holds of every configuration reached from `max_config.start cell ds`:
the cell never went below its initial content, it holds the initial content or
one of the durations, the calls still carry the durations `ds`, a call that has
returned has a duration no larger than the cell, and a call about to execute
its `cmpxchg64` loaded a value no larger than its duration. -/
def max_config.invariant (cell : Int) (ds : List Int) (c : max_config) : Prop :=
  cell ≤ c.cell ∧ (c.cell = cell ∨ c.cell ∈ ds) ∧ c.calls.map (fun t => t.irq_usec) = ds ∧
    ∀ t ∈ c.calls, (t.pc = .done → t.irq_usec ≤ c.cell) ∧
      ∀ curr, t.pc = .cas curr → curr ≤ t.irq_usec

/-! ## Properties -/

/-! ### Arithmetic helpers -/

theorem wrap_int_of_range {x : Int} (h0 : 0 ≤ x) (h1 : x < 2 ^ 31) : wrap_int x = x := by
  unfold wrap_int
  omega

theorem wrap_s64_of_range {x : Int} (h0 : -(2 ^ 63) ≤ x) (h1 : x < 2 ^ 63) :
    wrap_s64 x = x := by
  unfold wrap_s64
  omega

/-- The facts about the constants that the proofs use, in multiplicative form. -/
theorem Consts.WellFormed.products {K : Consts} (hK : K.WellFormed) :
    K.LATENCY_CNT_SMALL * K.RESUME_LATENCY_STEP_SMALL = K.RESUME_LATENCY_BOUND_SMALL ∧
    K.LATENCY_CNT_MID * K.RESUME_LATENCY_STEP_MID =
      K.RESUME_LATENCY_BOUND_MID - K.RESUME_LATENCY_BOUND_SMALL ∧
    K.LATENCY_CNT_LARGE * K.RESUME_LATENCY_STEP_LARGE =
      K.RESUME_LATENCY_BOUND_MAX - K.RESUME_LATENCY_BOUND_MID := by
  obtain ⟨h1, h2, h3, h4, h5, h6, c1, c2, c3, m1, m2, m3, -, -⟩ := hK
  refine ⟨?_, ?_, ?_⟩
  · have := Int.tmod_add_tdiv K.RESUME_LATENCY_BOUND_SMALL K.RESUME_LATENCY_STEP_SMALL
    rw [m1, ← c1] at this
    linarith [mul_comm K.LATENCY_CNT_SMALL K.RESUME_LATENCY_STEP_SMALL]
  · have := Int.tmod_add_tdiv (K.RESUME_LATENCY_BOUND_MID - K.RESUME_LATENCY_BOUND_SMALL)
      K.RESUME_LATENCY_STEP_MID
    rw [m2, ← c2] at this
    linarith [mul_comm K.LATENCY_CNT_MID K.RESUME_LATENCY_STEP_MID]
  · have := Int.tmod_add_tdiv (K.RESUME_LATENCY_BOUND_MAX - K.RESUME_LATENCY_BOUND_MID)
      K.RESUME_LATENCY_STEP_LARGE
    rw [m3, ← c3] at this
    linarith [mul_comm K.LATENCY_CNT_LARGE K.RESUME_LATENCY_STEP_LARGE]

/-- Every region holds at least one bucket. -/
theorem Consts.WellFormed.counts_pos {K : Consts} (hK : K.WellFormed) :
    0 < K.LATENCY_CNT_SMALL ∧ 0 < K.LATENCY_CNT_MID ∧ 0 < K.LATENCY_CNT_LARGE := by
  obtain ⟨p1, p2, p3⟩ := hK.products
  obtain ⟨h1, h2, h3, h4, h5, h6, -⟩ := hK
  refine ⟨?_, ?_, ?_⟩
  · by_contra hc
    have := mul_nonpos_of_nonpos_of_nonneg (not_lt.mp hc) h4.le
    omega
  · by_contra hc
    have := mul_nonpos_of_nonpos_of_nonneg (not_lt.mp hc) h5.le
    omega
  · by_contra hc
    have := mul_nonpos_of_nonpos_of_nonneg (not_lt.mp hc) h6.le
    omega

/-- Truncating division of a non-negative `x < c * s` by a positive step. -/
theorem tdiv_bounds {x s c : Int} (hx : 0 ≤ x) (hs : 0 < s) (h : x < c * s) :
    0 ≤ Int.tdiv x s ∧ Int.tdiv x s < c := by
  rw [Int.tdiv_eq_ediv hx hs.le]
  exact ⟨Int.ediv_nonneg hx hs.le, Int.ediv_lt_of_lt_mul hs h⟩

theorem tdiv_mono {x y s : Int} (hx : 0 ≤ x) (hxy : x ≤ y) (hs : 0 < s) :
    Int.tdiv x s ≤ Int.tdiv y s := by
  rw [Int.tdiv_eq_ediv hx hs.le, Int.tdiv_eq_ediv (hx.trans hxy) hs.le]
  exact Int.ediv_le_ediv hs hxy

/-- The region of a non-negative duration and the index computed in it. -/
theorem resume_latency_index_cases {K : Consts} (hK : K.WellFormed) (d : Int) (hd : 0 ≤ d) :
    (d < K.RESUME_LATENCY_BOUND_SMALL ∧
      resume_latency_index K d = Int.tdiv d K.RESUME_LATENCY_STEP_SMALL ∧
      0 ≤ Int.tdiv d K.RESUME_LATENCY_STEP_SMALL ∧
      Int.tdiv d K.RESUME_LATENCY_STEP_SMALL < K.LATENCY_CNT_SMALL) ∨
    (K.RESUME_LATENCY_BOUND_SMALL ≤ d ∧ d < K.RESUME_LATENCY_BOUND_MID ∧
      resume_latency_index K d =
        Int.tdiv (d - K.RESUME_LATENCY_BOUND_SMALL) K.RESUME_LATENCY_STEP_MID +
          K.LATENCY_CNT_SMALL ∧
      0 ≤ Int.tdiv (d - K.RESUME_LATENCY_BOUND_SMALL) K.RESUME_LATENCY_STEP_MID ∧
      Int.tdiv (d - K.RESUME_LATENCY_BOUND_SMALL) K.RESUME_LATENCY_STEP_MID <
        K.LATENCY_CNT_MID) ∨
    (K.RESUME_LATENCY_BOUND_MID ≤ d ∧ d < K.RESUME_LATENCY_BOUND_MAX ∧
      resume_latency_index K d =
        Int.tdiv (d - K.RESUME_LATENCY_BOUND_MID) K.RESUME_LATENCY_STEP_LARGE +
          K.LATENCY_CNT_SMALL + K.LATENCY_CNT_MID ∧
      0 ≤ Int.tdiv (d - K.RESUME_LATENCY_BOUND_MID) K.RESUME_LATENCY_STEP_LARGE ∧
      Int.tdiv (d - K.RESUME_LATENCY_BOUND_MID) K.RESUME_LATENCY_STEP_LARGE <
        K.LATENCY_CNT_LARGE) ∨
    (K.RESUME_LATENCY_BOUND_MAX ≤ d ∧
      resume_latency_index K d =
        K.LATENCY_CNT_SMALL + K.LATENCY_CNT_MID + K.LATENCY_CNT_LARGE) := by
  obtain ⟨p1, p2, p3⟩ := hK.products
  have counts_pos := hK.counts_pos
  obtain ⟨h1, h2, h3, h4, h5, h6, -, -, -, -, -, -, hA, hI⟩ := hK
  obtain ⟨cS, cM, cL⟩ := counts_pos
  unfold resume_latency_index
  by_cases r1 : d < K.RESUME_LATENCY_BOUND_SMALL
  · left
    obtain ⟨b0, b1⟩ := tdiv_bounds hd h4 (by rw [p1]; exact r1)
    rw [if_pos r1, wrap_int_of_range b0 (by omega)]
    exact ⟨r1, rfl, b0, b1⟩
  · by_cases r2 : d < K.RESUME_LATENCY_BOUND_MID
    · right; left
      obtain ⟨b0, b1⟩ := tdiv_bounds (x := d - K.RESUME_LATENCY_BOUND_SMALL) (by omega) h5
        (by rw [p2]; omega)
      rw [if_neg r1, if_pos r2, wrap_int_of_range (by omega) (by omega)]
      exact ⟨by omega, r2, rfl, b0, b1⟩
    · by_cases r3 : d < K.RESUME_LATENCY_BOUND_MAX
      · right; right; left
        obtain ⟨b0, b1⟩ := tdiv_bounds (x := d - K.RESUME_LATENCY_BOUND_MID) (by omega) h6
          (by rw [p3]; omega)
        rw [if_neg r1, if_neg r2, if_pos r3, wrap_int_of_range (by omega) (by omega)]
        exact ⟨by omega, r3, rfl, b0, b1⟩
      · right; right; right
        rw [if_neg r1, if_neg r2, if_neg r3, wrap_int_of_range (by omega) (by omega)]
        exact ⟨by omega, rfl⟩

/-! ### The bucket index (C2) -/

/-- C2: under the stated relations between the constants, the bucket index
computed by `vendor_hook_resume_end` is monotonically non-decreasing on the
non-negative durations, and the four regions partition them: a duration lies
below `BOUND_SMALL`, in `[BOUND_SMALL, BOUND_MID)`, in `[BOUND_MID, BOUND_MAX)`
or at and above `BOUND_MAX` exactly when its index lies below `CNT_SMALL`, in
`[CNT_SMALL, CNT_SMALL + CNT_MID)`, in
`[CNT_SMALL + CNT_MID, CNT_SMALL + CNT_MID + CNT_LARGE)` or equals
`CNT_SMALL + CNT_MID + CNT_LARGE`. -/
theorem resume_latency_index_monotone_partition (K : Consts) (hK : K.WellFormed) :
    (∀ d1 d2 : Int, 0 ≤ d1 → d1 ≤ d2 →
      resume_latency_index K d1 ≤ resume_latency_index K d2) ∧
    (∀ d : Int, 0 ≤ d →
      (d < K.RESUME_LATENCY_BOUND_SMALL ↔
        resume_latency_index K d < K.LATENCY_CNT_SMALL) ∧
      (K.RESUME_LATENCY_BOUND_SMALL ≤ d ∧ d < K.RESUME_LATENCY_BOUND_MID ↔
        K.LATENCY_CNT_SMALL ≤ resume_latency_index K d ∧
          resume_latency_index K d < K.LATENCY_CNT_SMALL + K.LATENCY_CNT_MID) ∧
      (K.RESUME_LATENCY_BOUND_MID ≤ d ∧ d < K.RESUME_LATENCY_BOUND_MAX ↔
        K.LATENCY_CNT_SMALL + K.LATENCY_CNT_MID ≤ resume_latency_index K d ∧
          resume_latency_index K d <
            K.LATENCY_CNT_SMALL + K.LATENCY_CNT_MID + K.LATENCY_CNT_LARGE) ∧
      (K.RESUME_LATENCY_BOUND_MAX ≤ d ↔
        resume_latency_index K d =
          K.LATENCY_CNT_SMALL + K.LATENCY_CNT_MID + K.LATENCY_CNT_LARGE)) := by
  have h1 := hK.1
  have h2 := hK.2.1
  have h3 := hK.2.2.1
  have h4 := hK.2.2.2.1
  have h5 := hK.2.2.2.2.1
  have h6 := hK.2.2.2.2.2.1
  obtain ⟨cS, cM, cL⟩ := hK.counts_pos
  constructor
  · intro d1 d2 h0 h12
    have c1 := resume_latency_index_cases hK d1 h0
    have c2 := resume_latency_index_cases hK d2 (h0.trans h12)
    have mS := tdiv_mono h0 h12 h4
    have mM : d1 < K.RESUME_LATENCY_BOUND_SMALL ∨
        Int.tdiv (d1 - K.RESUME_LATENCY_BOUND_SMALL) K.RESUME_LATENCY_STEP_MID ≤
          Int.tdiv (d2 - K.RESUME_LATENCY_BOUND_SMALL) K.RESUME_LATENCY_STEP_MID := by
      by_cases h : d1 < K.RESUME_LATENCY_BOUND_SMALL
      · exact Or.inl h
      · exact Or.inr (tdiv_mono (by omega) (by omega) h5)
    have mL : d1 < K.RESUME_LATENCY_BOUND_MID ∨
        Int.tdiv (d1 - K.RESUME_LATENCY_BOUND_MID) K.RESUME_LATENCY_STEP_LARGE ≤
          Int.tdiv (d2 - K.RESUME_LATENCY_BOUND_MID) K.RESUME_LATENCY_STEP_LARGE := by
      by_cases h : d1 < K.RESUME_LATENCY_BOUND_MID
      · exact Or.inl h
      · exact Or.inr (tdiv_mono (by omega) (by omega) h6)
    rcases c1 with ⟨a, e1, b0, b1⟩ | ⟨a0, a, e1, b0, b1⟩ | ⟨a0, a, e1, b0, b1⟩ | ⟨a, e1⟩ <;>
    rcases c2 with ⟨a', e2, b0', b1'⟩ | ⟨a0', a', e2, b0', b1'⟩ | ⟨a0', a', e2, b0', b1'⟩ |
      ⟨a', e2⟩ <;>
    omega
  · intro d h0
    rcases resume_latency_index_cases hK d h0 with
      ⟨a, e, b0, b1⟩ | ⟨a0, a, e, b0, b1⟩ | ⟨a0, a, e, b0, b1⟩ | ⟨a, e⟩ <;>
    refine ⟨?_, ?_, ?_, ?_⟩ <;> constructor <;> intro _ <;> omega

/-- The sample constants satisfy the relations, and across the boundary 250 the
index does not decrease. -/
theorem resume_latency_index_monotone_partition_witness :
    sampleConsts.WellFormed ∧
      resume_latency_index sampleConsts 249 ≤ resume_latency_index sampleConsts 250 :=
  ⟨by decide,
    (resume_latency_index_monotone_partition sampleConsts (by decide)).1 249 250
      (by decide) (by decide)⟩

/-! ### Running maxima of lists -/

theorem foldl_max_ge_init (ds : List Int) (m : Int) : m ≤ ds.foldl max m := by
  induction ds generalizing m with
  | nil => exact le_refl _
  | cons d ds ih => exact (le_max_left m d).trans (ih (max m d))

theorem foldl_max_ge_mem (ds : List Int) (m d : Int) (hd : d ∈ ds) : d ≤ ds.foldl max m := by
  induction ds generalizing m with
  | nil => cases hd
  | cons x xs ih =>
    rcases List.mem_cons.mp hd with h | h
    · subst h
      exact (le_max_right m d).trans (foldl_max_ge_init xs (max m d))
    · exact ih (max m x) h

theorem foldl_max_mem_or_init (ds : List Int) (m : Int) :
    ds.foldl max m = m ∨ ds.foldl max m ∈ ds := by
  induction ds generalizing m with
  | nil => exact Or.inl rfl
  | cons x xs ih =>
    rcases ih (max m x) with h | h
    · rcases max_choice m x with hm | hm
      · left; simp only [List.foldl_cons]; rw [h, hm]
      · right; simp only [List.foldl_cons]; rw [h, hm]; exact List.mem_cons_self _ _
    · right; exact List.mem_cons_of_mem _ h

theorem foldl_max_mem_of_pos (ds : List Int) (hne : ds ≠ []) (hpos : ∀ d ∈ ds, 0 < d) :
    ds.foldl max 0 ∈ ds := by
  rcases foldl_max_mem_or_init ds 0 with h | h
  · cases ds with
    | nil => exact absurd rfl hne
    | cons x xs =>
      have h1 := foldl_max_ge_mem (x :: xs) 0 x (List.mem_cons_self _ _)
      have h2 := hpos x (List.mem_cons_self _ _)
      omega
  · exact h
/-! ### Arrays -/

theorem cells_sum_store_outside (a : Int → Int) (i v : Int) (n : Nat)
    (h : i < 0 ∨ (n : Int) ≤ i) : cells_sum (store a i v) n = cells_sum a n := by
  induction n with
  | zero => rfl
  | succ k ih =>
    have hne : ((k : Int) = i) = False := by
      simp only [eq_iff_iff, iff_false]
      push_cast at h
      omega
    simp only [cells_sum, store, hne, if_false]
    rw [← ih (by push_cast at h; omega)]

theorem cells_sum_store_inside (a : Int → Int) (i v : Int) (n : Nat)
    (h0 : 0 ≤ i) (h1 : i < n) : cells_sum (store a i v) n = cells_sum a n - a i + v := by
  induction n with
  | zero => simp at h1; omega
  | succ k ih =>
    by_cases hk : (k : Int) = i
    · have hout := cells_sum_store_outside a i v k (Or.inr (by omega))
      simp only [cells_sum, hout]
      simp only [store, hk, if_true]
      omega
    · have hin := ih (by push_cast at h1; omega)
      simp only [cells_sum, hin]
      simp only [store, hk, if_false]
      omega

theorem cells_sum_nonneg (a : Int → Int) (n : Nat)
    (h : ∀ j : Int, 0 ≤ j → j < n → 0 ≤ a j) : 0 ≤ cells_sum a n := by
  induction n with
  | zero => simp [cells_sum]
  | succ k ih =>
    have h1 := ih (fun j hj0 hj1 => h j hj0 (by push_cast; omega))
    have h2 := h k (by omega) (by push_cast; omega)
    simp only [cells_sum]
    omega

theorem cell_le_cells_sum (a : Int → Int) (n : Nat)
    (h : ∀ j : Int, 0 ≤ j → j < n → 0 ≤ a j) (i : Int) (h0 : 0 ≤ i) (h1 : i < n) :
    a i ≤ cells_sum a n := by
  induction n with
  | zero => simp at h1; omega
  | succ k ih =>
    have hk := h k (by omega) (by push_cast; omega)
    have hs := cells_sum_nonneg a k (fun j hj0 hj1 => h j hj0 (by push_cast; omega))
    simp only [cells_sum]
    by_cases hik : i = k
    · subst hik
      omega
    · have := ih (fun j hj0 hj1 => h j hj0 (by push_cast; omega))
        (by push_cast at h1; omega)
      omega

theorem cells_sum_zero (a : Int → Int) (n : Nat)
    (h : ∀ j : Int, 0 ≤ j → j < n → a j = 0) : cells_sum a n = 0 := by
  induction n with
  | zero => rfl
  | succ k ih =>
    simp only [cells_sum]
    rw [ih (fun j hj0 hj1 => h j hj0 (by push_cast; omega)),
      h k (by omega) (by push_cast; omega)]
    rfl

/-! ### The resume histogram -/

/-- For a positive duration the computed index is a declared cell. -/
theorem resume_latency_index_in_bounds {K : Consts} (hK : K.WellFormed) (d : Int)
    (hd : 0 < d) :
    0 ≤ resume_latency_index K d ∧ resume_latency_index K d < K.RESUME_LATENCY_ARR_SIZE := by
  obtain ⟨cS, cM, cL⟩ := hK.counts_pos
  have hA := hK.2.2.2.2.2.2.2.2.2.2.2.2.1
  rcases resume_latency_index_cases hK d hd.le with
    ⟨a, e, b0, b1⟩ | ⟨a0, a, e, b0, b1⟩ | ⟨a0, a, e, b0, b1⟩ | ⟨a, e⟩ <;> omega

/-- The effect of an end hook that leaves at the first guard. -/
theorem vendor_hook_resume_end_guard (K : Consts) (now : Int) (g : Globals)
    (h : g.resume_latency_stats.resume_start = g.resume_latency_stats.resume_end) :
    vendor_hook_resume_end K now g = g := by
  simp [vendor_hook_resume_end, h]

/-- The effect of an end hook that measures a positive duration. -/
theorem vendor_hook_resume_end_measured (K : Consts) (now d : Int) (g : Globals)
    (h : resume_end_measured now g = some d) (hd : 0 < d) :
    (vendor_hook_resume_end K now g).resume_latency_stats =
      { resume_start := now
        resume_end := now
        resume_count :=
          store g.resume_latency_stats.resume_count (resume_latency_index K d)
            (wrap_s64 (g.resume_latency_stats.resume_count (resume_latency_index K d) + 1))
        resume_latency_max_ms := max g.resume_latency_stats.resume_latency_max_ms d
        resume_latency_sum_ms :=
          wrap_u64 (g.resume_latency_stats.resume_latency_sum_ms + d) } := by
  unfold resume_end_measured at h
  split at h
  · cases h
  · rename_i hne
    injection h with h
    subst h
    have hd' : ¬ ktime_ms_delta now g.resume_latency_stats.resume_start ≤ 0 := by omega
    simp only [vendor_hook_resume_end, hne, if_false, hd']

/-- The statistics after a list of cycles that all measure a positive
duration, from an arbitrary state. -/
theorem run_resume_cycles_measured {K : Consts} (hK : K.WellFormed) :
    ∀ (cycles : List resume_cycle) (ds : List Int) (g : Globals),
      resume_cycles_measured K cycles g = ds.map some →
      (∀ d ∈ ds, 0 < d) →
      (0 ≤ g.resume_latency_stats.resume_latency_sum_ms ∧
        g.resume_latency_stats.resume_latency_sum_ms < 2 ^ 64) →
      (run_resume_cycles K cycles g).resume_latency_stats.resume_latency_sum_ms =
          wrap_u64 (g.resume_latency_stats.resume_latency_sum_ms + ds.sum) ∧
        (run_resume_cycles K cycles g).resume_latency_stats.resume_latency_max_ms =
          ds.foldl max g.resume_latency_stats.resume_latency_max_ms ∧
        ((∀ j : Int, 0 ≤ j → j < K.RESUME_LATENCY_ARR_SIZE →
              0 ≤ g.resume_latency_stats.resume_count j) →
          resume_count_total K g.resume_latency_stats + cycles.length < 2 ^ 63 →
          (∀ j : Int, 0 ≤ j → j < K.RESUME_LATENCY_ARR_SIZE →
              0 ≤ (run_resume_cycles K cycles g).resume_latency_stats.resume_count j) ∧
            resume_count_total K (run_resume_cycles K cycles g).resume_latency_stats =
              resume_count_total K g.resume_latency_stats + cycles.length) := by
  intro cycles
  induction cycles with
  | nil =>
    intro ds g hm _ hr
    cases ds with
    | nil =>
      simp only [run_resume_cycles, List.sum_nil, List.foldl_nil, List.length_nil]
      refine ⟨by unfold wrap_u64; omega, trivial, fun h _ => ⟨h, by simp⟩⟩
    | cons d ds => simp [resume_cycles_measured] at hm
  | cons c cs ih =>
    intro ds g hm hpos hr
    cases ds with
    | nil => simp [resume_cycles_measured] at hm
    | cons d ds =>
      simp only [resume_cycles_measured, List.map_cons, List.cons.injEq] at hm
      obtain ⟨hm1, hm2⟩ := hm
      have hd : 0 < d := hpos d (List.mem_cons_self _ _)
      have hstep := vendor_hook_resume_end_measured K c.end_now d
        (vendor_hook_resume_begin c.begin_now g) hm1 hd
      have hstep' : (run_resume_cycle K c g).resume_latency_stats = _ := hstep
      obtain ⟨i0, i1⟩ := resume_latency_index_in_bounds hK d hd
      obtain ⟨s1, s2, s3⟩ := ih ds (run_resume_cycle K c g) hm2
        (fun x hx => hpos x (List.mem_cons_of_mem _ hx))
        (by rw [hstep']; simp only [vendor_hook_resume_begin]; unfold wrap_u64; omega)
      simp only [run_resume_cycles, List.sum_cons, List.foldl_cons, List.length_cons]
      rw [hstep'] at s1 s2 s3
      simp only [vendor_hook_resume_begin] at s1 s2 s3
      refine ⟨?_, s2, ?_⟩
      · rw [s1]
        unfold wrap_u64
        omega
      · intro hnn hlt
        have hA0 : 0 ≤ K.RESUME_LATENCY_ARR_SIZE := by omega
        have hi1 : resume_latency_index K d < (K.RESUME_LATENCY_ARR_SIZE.toNat : Int) := by
          rw [Int.toNat_of_nonneg hA0]; exact i1
        have hle := cell_le_cells_sum g.resume_latency_stats.resume_count
          K.RESUME_LATENCY_ARR_SIZE.toNat
          (fun j hj0 hj1 => hnn j hj0 (by rw [Int.toNat_of_nonneg hA0] at hj1; exact hj1))
          (resume_latency_index K d) i0 hi1
        have hc0 := hnn _ i0 i1
        unfold resume_count_total at hlt hle ⊢
        have hw : wrap_s64
            (g.resume_latency_stats.resume_count (resume_latency_index K d) + 1) =
            g.resume_latency_stats.resume_count (resume_latency_index K d) + 1 :=
          wrap_s64_of_range (by omega) (by push_cast at hlt; omega)
        have htot := cells_sum_store_inside g.resume_latency_stats.resume_count
          (resume_latency_index K d)
          (g.resume_latency_stats.resume_count (resume_latency_index K d) + 1)
          K.RESUME_LATENCY_ARR_SIZE.toNat i0 hi1
        rw [hw] at s3
        unfold resume_count_total at s3
        simp only at s3
        have s3' := s3
          (by
            intro j hj0 hj1
            unfold store
            split
            · omega
            · exact hnn j hj0 hj1)
          (by rw [htot]; push_cast at hlt ⊢; omega)
        refine ⟨s3'.1, ?_⟩
        rw [s3'.2, htot]
        push_cast
        omega

/-- C1: from a state whose bucket counts, sum and max are all zero, after `N`
resume cycles (a begin hook followed by an end hook) whose end hooks measure the
positive durations `d_1 .. d_N`, `resume_latency_sum_ms` is `d_1 + ... + d_N`
as a `u64` (exactly the sum while it stays below `2 ^ 64`),
`resume_latency_max_ms` is the largest `d_i` (`0` when `N = 0`), and the
`resume_count[]` entries add up to `N` (for `N` below the `2 ^ 63` increments a
64-bit counter can take). -/
theorem resume_cycles_statistics (K : Consts) (hK : K.WellFormed) (g : Globals)
    (cycles : List resume_cycle) (ds : List Int)
    (hcount : ∀ j : Int, 0 ≤ j → j < K.RESUME_LATENCY_ARR_SIZE →
      g.resume_latency_stats.resume_count j = 0)
    (hsum : g.resume_latency_stats.resume_latency_sum_ms = 0)
    (hmax : g.resume_latency_stats.resume_latency_max_ms = 0)
    (hmeasured : resume_cycles_measured K cycles g = ds.map some)
    (hpos : ∀ d ∈ ds, 0 < d) :
    (run_resume_cycles K cycles g).resume_latency_stats.resume_latency_sum_ms =
        ds.sum % 2 ^ 64 ∧
      (ds.sum < 2 ^ 64 →
        (run_resume_cycles K cycles g).resume_latency_stats.resume_latency_sum_ms = ds.sum) ∧
      (ds = [] →
        (run_resume_cycles K cycles g).resume_latency_stats.resume_latency_max_ms = 0) ∧
      (∀ d ∈ ds,
        d ≤ (run_resume_cycles K cycles g).resume_latency_stats.resume_latency_max_ms) ∧
      (ds ≠ [] →
        (run_resume_cycles K cycles g).resume_latency_stats.resume_latency_max_ms ∈ ds) ∧
      ((cycles.length : Int) < 2 ^ 63 →
        resume_count_total K (run_resume_cycles K cycles g).resume_latency_stats =
          cycles.length) := by
  obtain ⟨s1, s2, s3⟩ := run_resume_cycles_measured hK cycles ds g hmeasured hpos
    (by rw [hsum]; omega)
  have hA0 : 0 ≤ K.RESUME_LATENCY_ARR_SIZE := by
    obtain ⟨cS, cM, cL⟩ := hK.counts_pos
    have hA := hK.2.2.2.2.2.2.2.2.2.2.2.2.1
    omega
  have htot0 : resume_count_total K g.resume_latency_stats = 0 :=
    cells_sum_zero _ _ (fun j hj0 hj1 =>
      hcount j hj0 (by rw [Int.toNat_of_nonneg hA0] at hj1; exact hj1))
  have hsum_nonneg : 0 ≤ ds.sum := List.sum_nonneg (fun d hd => (hpos d hd).le)
  rw [hsum] at s1
  rw [hmax] at s2
  have hs : (run_resume_cycles K cycles g).resume_latency_stats.resume_latency_sum_ms =
      ds.sum % 2 ^ 64 := by
    rw [s1]; unfold wrap_u64; omega
  refine ⟨hs, ?_, ?_, ?_, ?_, ?_⟩
  · intro hlt
    rw [hs]
    omega
  · intro hnil
    rw [s2, hnil]
    rfl
  · intro d hd
    rw [s2]
    exact foldl_max_ge_mem ds 0 d hd
  · intro hne
    rw [s2]
    exact foldl_max_mem_of_pos ds hne hpos
  · intro hlen
    have := s3 (fun j hj0 hj1 => by rw [hcount j hj0 hj1]) (by rw [htot0]; omega)
    rw [this.2, htot0]
    omega
/-- Two cycles of 5 ms and 300 ms from the load-time state: the sum is 305, the
maximum 300 and the buckets hold two samples. -/
theorem resume_cycles_statistics_witness :
    (run_resume_cycles sampleConsts [⟨1000000, 6000000⟩, ⟨10000000, 310000000⟩]
        Globals.init).resume_latency_stats.resume_latency_sum_ms = 305 ∧
      300 ≤ (run_resume_cycles sampleConsts [⟨1000000, 6000000⟩, ⟨10000000, 310000000⟩]
        Globals.init).resume_latency_stats.resume_latency_max_ms ∧
      resume_count_total sampleConsts
        (run_resume_cycles sampleConsts [⟨1000000, 6000000⟩, ⟨10000000, 310000000⟩]
          Globals.init).resume_latency_stats = 2 := by
  have h := resume_cycles_statistics sampleConsts (by decide) Globals.init
    [⟨1000000, 6000000⟩, ⟨10000000, 310000000⟩] [5, 300]
    (fun _ _ _ => rfl) rfl rfl (by decide) (by decide)
  exact ⟨h.2.1 (by decide), h.2.2.2.1 300 (by decide), h.2.2.2.2.2 (by decide)⟩

/-- An end hook that passes the first guard and measures a duration that is not
positive returns at line 53: it has stored the clock into `resume_end` and
changed nothing else, `resume_start` included. -/
theorem vendor_hook_resume_end_nonpositive (K : Consts) (now d : Int) (g : Globals)
    (h : resume_end_measured now g = some d) (hd : d ≤ 0) :
    vendor_hook_resume_end K now g =
      { g with resume_latency_stats := { g.resume_latency_stats with resume_end := now } } := by
  unfold resume_end_measured at h
  split at h
  · cases h
  · rename_i hne
    injection h with h
    subst h
    simp only [vendor_hook_resume_end, hne, if_false, hd, if_true]

/-- C6, evaluated: a begin hook at 1 ms and an end hook at 1.5 ms measure a
duration of 0 ms; the end hook returns at line 53 with
`resume_start = 1000000` and `resume_end = 1500000`, so the timestamps differ,
and a second end hook at 3 ms, with no begin hook in between, records a sample
of 2 ms. -/
theorem resume_end_nonpositive_not_rebased :
    resume_end_measured 1500000 (vendor_hook_resume_begin 1000000 Globals.init) = some 0 ∧
      (vendor_hook_resume_end sampleConsts 1500000
        (vendor_hook_resume_begin 1000000 Globals.init)).resume_latency_stats.resume_start
        = 1000000 ∧
      (vendor_hook_resume_end sampleConsts 1500000
        (vendor_hook_resume_begin 1000000 Globals.init)).resume_latency_stats.resume_end
        = 1500000 ∧
      (vendor_hook_resume_end sampleConsts 3000000
        (vendor_hook_resume_end sampleConsts 1500000
          (vendor_hook_resume_begin 1000000
            Globals.init))).resume_latency_stats.resume_latency_sum_ms = 2 ∧
      (vendor_hook_resume_end sampleConsts 3000000
        (vendor_hook_resume_end sampleConsts 1500000
          (vendor_hook_resume_begin 1000000
            Globals.init))).resume_latency_stats.resume_count 0 = 1 := by
  refine ⟨by decide, by decide, by decide, by decide, by decide⟩

/-! ### The end handlers on a line in range -/

theorem store_max_self (a : Int → Int) (i d : Int) (h : d < a i) :
    store a i (max (a i) d) = a := by
  funext j
  unfold store
  split
  · rename_i hj
    subst hj
    exact max_eq_left h.le
  · rfl

/-- The effect of `hook_softirq_end` for a vector in range. -/
theorem hook_softirq_end_in_range (K : Consts) (cpu vec_nr : Nat) (now : Int) (g : Globals)
    (h : vec_nr < K.NR_SOFTIRQS) :
    hook_softirq_end K cpu vec_nr now g =
      { g with
        long_irq_stat :=
          { g.long_irq_stat with
            softirq_end := now
            long_softirq_count :=
              if g.long_irq_stat.long_softirq_threshold ≤ softirq_usec K cpu vec_nr now g then
                wrap_s64 (g.long_irq_stat.long_softirq_count + 1)
              else g.long_irq_stat.long_softirq_count
            long_softirq_arr :=
              store g.long_irq_stat.long_softirq_arr vec_nr
                (max (g.long_irq_stat.long_softirq_arr vec_nr)
                  (softirq_usec K cpu vec_nr now g)) }
        warn_emitted :=
          if g.long_irq_stat.long_softirq_threshold ≤ softirq_usec K cpu vec_nr now g ∧
              g.long_irq_stat.display_warning = true then
            g.warn_emitted + 1
          else g.warn_emitted } := by
  have hg : ¬ vec_nr ≥ K.NR_SOFTIRQS := by omega
  unfold hook_softirq_end
  rw [if_neg hg]
  simp only [ge_iff_le, cmpxchg64, if_true]
  unfold softirq_usec
  by_cases ht : g.long_irq_stat.long_softirq_threshold ≤
      ktime_to_us (ktime_sub now
        (g.long_irq_stat.softirq_start ((cpu : Int) * K.NR_SOFTIRQS + vec_nr)))
  · by_cases hm : ktime_to_us (ktime_sub now
        (g.long_irq_stat.softirq_start ((cpu : Int) * K.NR_SOFTIRQS + vec_nr))) <
        g.long_irq_stat.long_softirq_arr vec_nr
    · simp only [ht, hm, if_true, store_max_self _ _ _ hm]
    · simp only [ht, hm, if_true, if_false, max_eq_right (not_lt.mp hm)]
  · by_cases hm : ktime_to_us (ktime_sub now
        (g.long_irq_stat.softirq_start ((cpu : Int) * K.NR_SOFTIRQS + vec_nr))) <
        g.long_irq_stat.long_softirq_arr vec_nr
    · simp only [ht, hm, if_true, if_false, false_and, store_max_self _ _ _ hm]
    · simp only [ht, hm, if_false, false_and, max_eq_right (not_lt.mp hm)]

/-- The effect of `hook_irq_end` for a line in range. -/
theorem hook_irq_end_in_range (K : Consts) (cpu : Nat) (irq now : Int) (g : Globals)
    (h : irq < K.MAX_IRQ_NUM) :
    hook_irq_end K cpu irq now g =
      { g with
        long_irq_stat :=
          { g.long_irq_stat with
            irq_end := now
            long_irq_count :=
              if g.long_irq_stat.long_irq_threshold ≤ irq_usec K cpu irq now g then
                wrap_s64 (g.long_irq_stat.long_irq_count + 1)
              else g.long_irq_stat.long_irq_count
            long_irq_arr :=
              store g.long_irq_stat.long_irq_arr irq
                (max (g.long_irq_stat.long_irq_arr irq) (irq_usec K cpu irq now g)) }
        warn_emitted :=
          if g.long_irq_stat.long_irq_threshold ≤ irq_usec K cpu irq now g ∧
              g.long_irq_stat.display_warning = true then
            g.warn_emitted + 1
          else g.warn_emitted } := by
  have hg : ¬ irq ≥ K.MAX_IRQ_NUM := by omega
  unfold hook_irq_end
  rw [if_neg hg]
  simp only [ge_iff_le, cmpxchg64, if_true]
  unfold irq_usec
  by_cases ht : g.long_irq_stat.long_irq_threshold ≤
      ktime_to_us (ktime_sub now
        (g.long_irq_stat.irq_start ((cpu : Int) * K.MAX_IRQ_NUM + irq)))
  · by_cases hm : ktime_to_us (ktime_sub now
        (g.long_irq_stat.irq_start ((cpu : Int) * K.MAX_IRQ_NUM + irq))) <
        g.long_irq_stat.long_irq_arr irq
    · simp only [ht, hm, if_true, store_max_self _ _ _ hm]
    · simp only [ht, hm, if_true, if_false, max_eq_right (not_lt.mp hm)]
  · by_cases hm : ktime_to_us (ktime_sub now
        (g.long_irq_stat.irq_start ((cpu : Int) * K.MAX_IRQ_NUM + irq))) <
        g.long_irq_stat.long_irq_arr irq
    · simp only [ht, hm, if_true, if_false, false_and, store_max_self _ _ _ hm]
    · simp only [ht, hm, if_false, false_and, max_eq_right (not_lt.mp hm)]
theorem foldl_max_eq_or_mem_of_nonneg (ds : List Int) (h : ∃ d ∈ ds, 0 ≤ d) :
    ds.foldl max 0 ∈ ds := by
  rcases foldl_max_mem_or_init ds 0 with h0 | h0
  · obtain ⟨d, hd, hd0⟩ := h
    have := foldl_max_ge_mem ds 0 d hd
    have hd' : d = 0 := by omega
    rw [h0, ← hd']
    exact hd
  · exact h0

/-- The running maximum of a vector after a list of soft end calls for it. -/
theorem run_softirq_ends_max (K : Consts) (vec_nr : Nat) (hv : vec_nr < K.NR_SOFTIRQS) :
    ∀ (calls : List softirq_call) (g : Globals), (∀ c ∈ calls, c.vec_nr = vec_nr) →
      (run_softirq_ends K calls g).long_irq_stat.long_softirq_arr vec_nr =
        (softirq_ends_usec K calls g).foldl max (g.long_irq_stat.long_softirq_arr vec_nr) := by
  intro calls
  induction calls with
  | nil => intro g _; rfl
  | cons c cs ih =>
    intro g hc
    have hcv : c.vec_nr = vec_nr := hc c (List.mem_cons_self _ _)
    simp only [run_softirq_ends, softirq_ends_usec, List.foldl_cons]
    rw [ih _ (fun x hx => hc x (List.mem_cons_of_mem _ hx))]
    rw [hcv, hook_softirq_end_in_range K c.cpu vec_nr c.now g hv]
    simp [store]

/-- The running maximum of a line after a list of hard end calls for it. -/
theorem run_irq_ends_max (K : Consts) (irq : Int) (hv : irq < K.MAX_IRQ_NUM) :
    ∀ (calls : List irq_call) (g : Globals), (∀ c ∈ calls, c.irq = irq) →
      (run_irq_ends K calls g).long_irq_stat.long_irq_arr irq =
        (irq_ends_usec K calls g).foldl max (g.long_irq_stat.long_irq_arr irq) := by
  intro calls
  induction calls with
  | nil => intro g _; rfl
  | cons c cs ih =>
    intro g hc
    have hcv : c.irq = irq := hc c (List.mem_cons_self _ _)
    simp only [run_irq_ends, irq_ends_usec, List.foldl_cons]
    rw [ih _ (fun x hx => hc x (List.mem_cons_of_mem _ hx))]
    rw [hcv, hook_irq_end_in_range K c.cpu irq c.now g hv]
    simp [store]

/-! ### Exceed counters -/

/-- The soft exceed counter after a list of end calls in range, from a state
whose counter is non-negative and cannot wrap during the list. -/
theorem run_softirq_ends_count (K : Consts) :
    ∀ (calls : List softirq_call) (g : Globals),
      (∀ c ∈ calls, c.vec_nr < K.NR_SOFTIRQS) →
      0 ≤ g.long_irq_stat.long_softirq_count →
      g.long_irq_stat.long_softirq_count + calls.length < 2 ^ 63 →
      (run_softirq_ends K calls g).long_irq_stat.long_softirq_count =
        g.long_irq_stat.long_softirq_count +
          ((softirq_ends_usec K calls g).filter
            (fun d => decide (g.long_irq_stat.long_softirq_threshold ≤ d))).length := by
  intro calls
  induction calls with
  | nil => intro g _ _ _; simp [run_softirq_ends, softirq_ends_usec]
  | cons c cs ih =>
    intro g hr h0 hlt
    have hstep := hook_softirq_end_in_range K c.cpu c.vec_nr c.now g
      (hr c (List.mem_cons_self _ _))
    have hthr : (hook_softirq_end K c.cpu c.vec_nr c.now g).long_irq_stat.long_softirq_threshold
        = g.long_irq_stat.long_softirq_threshold := by rw [hstep]
    have hcnt : (hook_softirq_end K c.cpu c.vec_nr c.now g).long_irq_stat.long_softirq_count
        = if g.long_irq_stat.long_softirq_threshold ≤ softirq_usec K c.cpu c.vec_nr c.now g
          then wrap_s64 (g.long_irq_stat.long_softirq_count + 1)
          else g.long_irq_stat.long_softirq_count := by rw [hstep]
    have hw : wrap_s64 (g.long_irq_stat.long_softirq_count + 1) =
        g.long_irq_stat.long_softirq_count + 1 :=
      wrap_s64_of_range (by omega) (by simp only [List.length_cons] at hlt; push_cast at hlt; omega)
    rw [hw] at hcnt
    simp only [List.length_cons] at hlt
    push_cast at hlt
    have hih := ih (hook_softirq_end K c.cpu c.vec_nr c.now g)
      (fun x hx => hr x (List.mem_cons_of_mem _ hx))
      (by rw [hcnt]; split <;> omega) (by rw [hcnt]; split <;> omega)
    simp only [run_softirq_ends, softirq_ends_usec]
    rw [hih, hthr, hcnt]
    by_cases ht : g.long_irq_stat.long_softirq_threshold ≤ softirq_usec K c.cpu c.vec_nr c.now g
    · simp only [ht, if_true, List.filter_cons, decide_True, List.length_cons]
      push_cast
      omega
    · simp only [ht, if_false, List.filter_cons, decide_False]
      simp

/-- The hard exceed counter after a list of end calls in range, from a state
whose counter is non-negative and cannot wrap during the list. -/
theorem run_irq_ends_count (K : Consts) :
    ∀ (calls : List irq_call) (g : Globals),
      (∀ c ∈ calls, c.irq < K.MAX_IRQ_NUM) →
      0 ≤ g.long_irq_stat.long_irq_count →
      g.long_irq_stat.long_irq_count + calls.length < 2 ^ 63 →
      (run_irq_ends K calls g).long_irq_stat.long_irq_count =
        g.long_irq_stat.long_irq_count +
          ((irq_ends_usec K calls g).filter
            (fun d => decide (g.long_irq_stat.long_irq_threshold ≤ d))).length := by
  intro calls
  induction calls with
  | nil => intro g _ _ _; simp [run_irq_ends, irq_ends_usec]
  | cons c cs ih =>
    intro g hr h0 hlt
    have hstep := hook_irq_end_in_range K c.cpu c.irq c.now g (hr c (List.mem_cons_self _ _))
    have hthr : (hook_irq_end K c.cpu c.irq c.now g).long_irq_stat.long_irq_threshold
        = g.long_irq_stat.long_irq_threshold := by rw [hstep]
    have hcnt : (hook_irq_end K c.cpu c.irq c.now g).long_irq_stat.long_irq_count
        = if g.long_irq_stat.long_irq_threshold ≤ irq_usec K c.cpu c.irq c.now g
          then wrap_s64 (g.long_irq_stat.long_irq_count + 1)
          else g.long_irq_stat.long_irq_count := by rw [hstep]
    have hw : wrap_s64 (g.long_irq_stat.long_irq_count + 1) =
        g.long_irq_stat.long_irq_count + 1 :=
      wrap_s64_of_range (by omega) (by simp only [List.length_cons] at hlt; push_cast at hlt; omega)
    rw [hw] at hcnt
    simp only [List.length_cons] at hlt
    push_cast at hlt
    have hih := ih (hook_irq_end K c.cpu c.irq c.now g)
      (fun x hx => hr x (List.mem_cons_of_mem _ hx))
      (by rw [hcnt]; split <;> omega) (by rw [hcnt]; split <;> omega)
    simp only [run_irq_ends, irq_ends_usec]
    rw [hih, hthr, hcnt]
    by_cases ht : g.long_irq_stat.long_irq_threshold ≤ irq_usec K c.cpu c.irq c.now g
    · simp only [ht, if_true, List.filter_cons, decide_True, List.length_cons]
      push_cast
      omega
    · simp only [ht, if_false, List.filter_cons, decide_False]
      simp

/-- C4: after a threshold write that stores `T >= 0` (and zeroes the exceed
counter), and for either value of the warning flag, the exceed counter after
any list of end calls in range (fewer than `2 ^ 63` of them) is the number of
calls whose measured duration is at least `T`.  With `T = 500` a call measuring
499 leaves the counter and a call measuring exactly 500 increments it.  This
holds for the soft and for the hard tracker. -/
theorem exceed_count_after_threshold_write (K : Consts) :
    (∀ (g : Globals) (T : Int) (count : Nat) (calls : List softirq_call),
      0 ≤ T → (∀ c ∈ calls, c.vec_nr < K.NR_SOFTIRQS) → (calls.length : Int) < 2 ^ 63 →
      (run_softirq_ends K calls
          (modify_softirq_threshold_store (some T) count g).1).long_irq_stat.long_softirq_count =
        ((softirq_ends_usec K calls (modify_softirq_threshold_store (some T) count g).1).filter
          (fun d => decide (T ≤ d))).length) ∧
    (∀ (g : Globals) (T : Int) (count : Nat) (calls : List irq_call),
      0 ≤ T → (∀ c ∈ calls, 0 ≤ c.irq ∧ c.irq < K.MAX_IRQ_NUM) →
      (calls.length : Int) < 2 ^ 63 →
      (run_irq_ends K calls
          (modify_irq_threshold_store (some T) count g).1).long_irq_stat.long_irq_count =
        ((irq_ends_usec K calls (modify_irq_threshold_store (some T) count g).1).filter
          (fun d => decide (T ≤ d))).length) ∧
    (∀ (g : Globals) (count cpu vec_nr : Nat) (now : Int), vec_nr < K.NR_SOFTIRQS →
      (softirq_usec K cpu vec_nr now (modify_softirq_threshold_store (some 500) count g).1 = 499 →
        (hook_softirq_end K cpu vec_nr now
          (modify_softirq_threshold_store (some 500) count g).1).long_irq_stat.long_softirq_count
          = 0) ∧
      (softirq_usec K cpu vec_nr now (modify_softirq_threshold_store (some 500) count g).1 = 500 →
        (hook_softirq_end K cpu vec_nr now
          (modify_softirq_threshold_store (some 500) count g).1).long_irq_stat.long_softirq_count
          = 1)) ∧
    (∀ (g : Globals) (count cpu : Nat) (irq now : Int), 0 ≤ irq → irq < K.MAX_IRQ_NUM →
      (irq_usec K cpu irq now (modify_irq_threshold_store (some 500) count g).1 = 499 →
        (hook_irq_end K cpu irq now
          (modify_irq_threshold_store (some 500) count g).1).long_irq_stat.long_irq_count = 0) ∧
      (irq_usec K cpu irq now (modify_irq_threshold_store (some 500) count g).1 = 500 →
        (hook_irq_end K cpu irq now
          (modify_irq_threshold_store (some 500) count g).1).long_irq_stat.long_irq_count
          = 1)) := by
  refine ⟨?_, ?_, ?_, ?_⟩
  · intro g T count calls hT hr hlen
    have hT' : ¬ T < 0 := by omega
    have h := run_softirq_ends_count K calls (modify_softirq_threshold_store (some T) count g).1
      hr (by simp [modify_softirq_threshold_store, hT'])
      (by simp only [modify_softirq_threshold_store, hT', if_false]; omega)
    rw [h]
    simp [modify_softirq_threshold_store, hT']
  · intro g T count calls hT hr hlen
    have hT' : ¬ T < 0 := by omega
    have h := run_irq_ends_count K calls (modify_irq_threshold_store (some T) count g).1
      (fun c hc => (hr c hc).2) (by simp [modify_irq_threshold_store, hT'])
      (by simp only [modify_irq_threshold_store, hT', if_false]; omega)
    rw [h]
    simp [modify_irq_threshold_store, hT']
  · intro g count cpu vec_nr now hv
    constructor
    · intro hd
      rw [hook_softirq_end_in_range K cpu vec_nr now _ hv, hd]
      simp [modify_softirq_threshold_store]
    · intro hd
      rw [hook_softirq_end_in_range K cpu vec_nr now _ hv, hd]
      simp [modify_softirq_threshold_store, wrap_s64]
  · intro g count cpu irq now _ hv
    constructor
    · intro hd
      rw [hook_irq_end_in_range K cpu irq now _ hv, hd]
      simp [modify_irq_threshold_store]
    · intro hd
      rw [hook_irq_end_in_range K cpu irq now _ hv, hd]
      simp [modify_irq_threshold_store, wrap_s64]
/-- After writing the threshold 500, three soft end calls measuring 499, 500
and 900 us leave the exceed counter at 2. -/
theorem exceed_count_after_threshold_write_witness :
    (run_softirq_ends sampleConsts [⟨0, 1, 499000⟩, ⟨0, 1, 500000⟩, ⟨0, 2, 900000⟩]
      (modify_softirq_threshold_store (some 500) 4
        Globals.init).1).long_irq_stat.long_softirq_count = 2 := by
  have h := (exceed_count_after_threshold_write sampleConsts).1 Globals.init 500 4
    [⟨0, 1, 499000⟩, ⟨0, 1, 500000⟩, ⟨0, 2, 900000⟩] (by decide) (by decide) (by decide)
  rw [show softirq_ends_usec sampleConsts
      [⟨0, 1, 499000⟩, ⟨0, 1, 500000⟩, ⟨0, 2, 900000⟩]
      (modify_softirq_threshold_store (some 500) 4 Globals.init).1 = [499, 500, 900]
    by decide] at h
  exact h.trans (by decide)

/-! ### Identifiers out of range -/

/-- A soft end call for a vector at or above `NR_SOFTIRQS` changes nothing. -/
theorem hook_softirq_end_out_of_range (K : Consts) (cpu vec_nr : Nat) (now : Int)
    (g : Globals) (h : K.NR_SOFTIRQS ≤ vec_nr) : hook_softirq_end K cpu vec_nr now g = g := by
  unfold hook_softirq_end
  rw [if_pos h]

/-- A hard end call for a line at or above `MAX_IRQ_NUM` changes nothing. -/
theorem hook_irq_end_above_range (K : Consts) (cpu : Nat) (irq now : Int) (g : Globals)
    (h : K.MAX_IRQ_NUM ≤ irq) : hook_irq_end K cpu irq now g = g := by
  unfold hook_irq_end
  rw [if_pos h]

/-- C7, evaluated: with the warning enabled and the hard threshold at 500, the
call `hook_irq_end` for `irq = -1` on cpu 1 at clock 1000000 passes the guard
`irq >= MAX_IRQ_NUM`, measures 1000 us, raises `long_irq_count` from 0 to 1,
emits a warning, and stores 1000 into the cell `long_irq_arr[-1]`. -/
theorem hook_irq_end_negative_irq :
    (modify_irq_threshold_store (some 500) 4
        (display_warning_store (some 1) 2 Globals.init).1).1.long_irq_stat.long_irq_count = 0 ∧
      (hook_irq_end sampleConsts 1 (-1) 1000000
        (modify_irq_threshold_store (some 500) 4
          (display_warning_store (some 1) 2 Globals.init).1).1).long_irq_stat.long_irq_count
        = 1 ∧
      (hook_irq_end sampleConsts 1 (-1) 1000000
        (modify_irq_threshold_store (some 500) 4
          (display_warning_store (some 1) 2 Globals.init).1).1).warn_emitted = 1 ∧
      (hook_irq_end sampleConsts 1 (-1) 1000000
        (modify_irq_threshold_store (some 500) 4
          (display_warning_store (some 1) 2 Globals.init).1).1).long_irq_stat.long_irq_arr (-1)
        = 1000 := by
  refine ⟨by decide, by decide, by decide, by decide⟩

/-- C8, evaluated: `hook_softirq_begin` for `vec_nr = NR_SOFTIRQS = 10` on
cpu 0 stores the clock into the cell of `softirq_start[1][0]`, and
`hook_irq_begin` for `irq = -1` on cpu 0 stores it into the cell before
`irq_start[0][0]`; both cells held 0. -/
theorem hook_begin_out_of_range_writes :
    Globals.init.long_irq_stat.softirq_start (1 * 10 + 0) = 0 ∧
      (hook_softirq_begin sampleConsts 0 10 777 Globals.init).long_irq_stat.softirq_start
        (1 * 10 + 0) = 777 ∧
      Globals.init.long_irq_stat.irq_start (-1) = 0 ∧
      (hook_irq_begin sampleConsts 0 (-1) 777 Globals.init).long_irq_stat.irq_start (-1)
        = 777 := by
  refine ⟨by decide, by decide, by decide, by decide⟩

/-! ### Threshold writes -/

/-- C9: a threshold write whose input parses to `v >= 0` sets the threshold of
its category to `v` and the exceed counter of its category to 0, returns the
byte count, and leaves everything else as it was: both `long_softirq_arr` and
`long_irq_arr`, the threshold and the exceed counter of the other category, the
warning flag, the start tables and end timestamps, the emitted warnings and
the resume histogram. -/
theorem threshold_store_effect (g : Globals) (v : Int) (count : Nat) (hv : 0 ≤ v) :
    (modify_softirq_threshold_store (some v) count g =
      ({ resume_latency_stats := g.resume_latency_stats
         long_irq_stat :=
          { softirq_start := g.long_irq_stat.softirq_start
            irq_start := g.long_irq_stat.irq_start
            softirq_end := g.long_irq_stat.softirq_end
            irq_end := g.long_irq_stat.irq_end
            long_softirq_count := 0
            long_irq_count := g.long_irq_stat.long_irq_count
            long_softirq_arr := g.long_irq_stat.long_softirq_arr
            long_irq_arr := g.long_irq_stat.long_irq_arr
            long_softirq_threshold := v
            long_irq_threshold := g.long_irq_stat.long_irq_threshold
            display_warning := g.long_irq_stat.display_warning }
         warn_emitted := g.warn_emitted }, count)) ∧
    (modify_irq_threshold_store (some v) count g =
      ({ resume_latency_stats := g.resume_latency_stats
         long_irq_stat :=
          { softirq_start := g.long_irq_stat.softirq_start
            irq_start := g.long_irq_stat.irq_start
            softirq_end := g.long_irq_stat.softirq_end
            irq_end := g.long_irq_stat.irq_end
            long_softirq_count := g.long_irq_stat.long_softirq_count
            long_irq_count := 0
            long_softirq_arr := g.long_irq_stat.long_softirq_arr
            long_irq_arr := g.long_irq_stat.long_irq_arr
            long_softirq_threshold := g.long_irq_stat.long_softirq_threshold
            long_irq_threshold := v
            display_warning := g.long_irq_stat.display_warning }
         warn_emitted := g.warn_emitted }, count)) := by
  have hv' : ¬ v < 0 := by omega
  constructor
  · simp only [modify_softirq_threshold_store, hv', if_false]
  · simp only [modify_irq_threshold_store, hv', if_false]

/-- Writing 250 to the soft threshold of the load-time state stores 250 and
returns the byte count 4. -/
theorem threshold_store_effect_witness :
    (modify_softirq_threshold_store (some 250) 4
        Globals.init).1.long_irq_stat.long_softirq_threshold = 250 ∧
      (modify_softirq_threshold_store (some 250) 4 Globals.init).2 = 4 :=
  ⟨congrArg (fun p => p.1.long_irq_stat.long_softirq_threshold)
      (threshold_store_effect Globals.init 250 4 (by decide)).1,
    congrArg (fun p => p.2) (threshold_store_effect Globals.init 250 4 (by decide)).1⟩

/-- C10: a threshold write whose input does not parse, or parses to a negative
integer, returns the full byte count and leaves the whole state, the threshold
and the exceed counter included, as it was.  This holds for both
categories. -/
theorem threshold_store_invalid (g : Globals) (parsed : Option Int) (count : Nat)
    (h : parsed = none ∨ ∃ v, parsed = some v ∧ v < 0) :
    modify_softirq_threshold_store parsed count g = (g, count) ∧
      modify_irq_threshold_store parsed count g = (g, count) := by
  rcases h with h | ⟨v, h, hv⟩
  · subst h
    exact ⟨rfl, rfl⟩
  · subst h
    simp only [modify_softirq_threshold_store, modify_irq_threshold_store, hv, if_true]
    exact ⟨trivial, trivial⟩

/-- Writing -5 to the hard threshold after it was set to 500 keeps 500 and
returns the byte count 3. -/
theorem threshold_store_invalid_witness :
    (modify_irq_threshold_store (some (-5)) 3
        (modify_irq_threshold_store (some 500) 4 Globals.init).1).1.long_irq_stat.long_irq_threshold
        = 500 ∧
      (modify_irq_threshold_store (some (-5)) 3
        (modify_irq_threshold_store (some 500) 4 Globals.init).1).2 = 3 := by
  have h := (threshold_store_invalid (modify_irq_threshold_store (some 500) 4 Globals.init).1
    (some (-5)) 3 (Or.inr ⟨-5, rfl, by decide⟩)).2
  rw [h]
  exact ⟨by decide, rfl⟩

/-! ### Histogram reset -/

/-- A measured millisecond duration fits the `u64` sum. -/
theorem ktime_ms_delta_lt (later earlier : Int) : ktime_ms_delta later earlier < 2 ^ 64 := by
  unfold ktime_ms_delta ktime_to_ms ktime_sub
  have hw : wrap_s64 (later - earlier) < 2 ^ 63 := by unfold wrap_s64; omega
  by_cases h0 : 0 ≤ wrap_s64 (later - earlier)
  · rw [Int.tdiv_eq_ediv h0 (by norm_num)]
    omega
  · have hneg : 0 ≤ -wrap_s64 (later - earlier) := by omega
    have h1 : Int.tdiv (wrap_s64 (later - earlier)) 1000000 =
        -Int.tdiv (-wrap_s64 (later - earlier)) 1000000 := by
      rw [Int.neg_tdiv, neg_neg]
    rw [h1, Int.tdiv_eq_ediv hneg (by norm_num)]
    omega

/-- C11: for every state and every written input, `resume_latency_metrics_store`
sets every declared `resume_count[]` entry, `resume_latency_sum_ms` and
`resume_latency_max_ms` to 0, leaves `resume_start` and `resume_end` as they
were and returns the byte count; and a begin hook followed by an end hook that
measures a positive duration `d`, run after the reset, records exactly one
sample: the bucket counts add up to 1, the sum is `d` and the maximum is `d`. -/
theorem histogram_reset_then_cycle (K : Consts) (hK : K.WellFormed) :
    (∀ (g : Globals) (count : Nat),
      (∀ j : Int, 0 ≤ j → j < K.RESUME_LATENCY_ARR_SIZE →
        (resume_latency_metrics_store K count g).1.resume_latency_stats.resume_count j = 0) ∧
      (resume_latency_metrics_store K count g).1.resume_latency_stats.resume_latency_sum_ms = 0 ∧
      (resume_latency_metrics_store K count g).1.resume_latency_stats.resume_latency_max_ms = 0 ∧
      (resume_latency_metrics_store K count g).1.resume_latency_stats.resume_start =
        g.resume_latency_stats.resume_start ∧
      (resume_latency_metrics_store K count g).1.resume_latency_stats.resume_end =
        g.resume_latency_stats.resume_end ∧
      (resume_latency_metrics_store K count g).2 = count) ∧
    (∀ (g : Globals) (count : Nat) (c : resume_cycle) (d : Int),
      resume_end_measured c.end_now
        (vendor_hook_resume_begin c.begin_now (resume_latency_metrics_store K count g).1) =
          some d →
      0 < d →
      resume_count_total K
          (run_resume_cycle K c (resume_latency_metrics_store K count g).1).resume_latency_stats
          = 1 ∧
        (run_resume_cycle K c
          (resume_latency_metrics_store K count g).1).resume_latency_stats.resume_latency_sum_ms
          = d ∧
        (run_resume_cycle K c
          (resume_latency_metrics_store K count g).1).resume_latency_stats.resume_latency_max_ms
          = d) := by
  constructor
  · intro g count
    refine ⟨fun j h0 h1 => ?_, rfl, rfl, rfl, rfl, rfl⟩
    simp only [resume_latency_metrics_store]
    rw [if_pos ⟨h0, h1⟩]
  · intro g count c d hm hd
    have hstep := vendor_hook_resume_end_measured K c.end_now d
      (vendor_hook_resume_begin c.begin_now (resume_latency_metrics_store K count g).1) hm hd
    have hstep' : (run_resume_cycle K c
        (resume_latency_metrics_store K count g).1).resume_latency_stats = _ := hstep
    obtain ⟨i0, i1⟩ := resume_latency_index_in_bounds hK d hd
    have hA0 : 0 ≤ K.RESUME_LATENCY_ARR_SIZE := by omega
    have hdlt : d < 2 ^ 64 := by
      unfold resume_end_measured at hm
      split at hm
      · cases hm
      · injection hm with hm
        rw [← hm]
        exact ktime_ms_delta_lt _ _
    have hzero : ∀ j : Int, 0 ≤ j → j < K.RESUME_LATENCY_ARR_SIZE →
        (resume_latency_metrics_store K count g).1.resume_latency_stats.resume_count j = 0 := by
      intro j h0 h1
      simp only [resume_latency_metrics_store]
      rw [if_pos ⟨h0, h1⟩]
    rw [hstep']
    simp only [vendor_hook_resume_begin]
    refine ⟨?_, ?_, ?_⟩
    · unfold resume_count_total
      simp only
      rw [cells_sum_store_inside _ _ _ _ i0 (by rw [Int.toNat_of_nonneg hA0]; exact i1),
        cells_sum_zero _ _ (fun j hj0 hj1 =>
          hzero j hj0 (by rw [Int.toNat_of_nonneg hA0] at hj1; exact hj1)),
        hzero _ i0 i1]
      decide
    · simp only [resume_latency_metrics_store]
      unfold wrap_u64
      omega
    · simp only [resume_latency_metrics_store]
      exact max_eq_right hd.le

/-- After two cycles and a reset, a cycle of 7 ms leaves the sum at 7 and one
sample in the buckets. -/
theorem histogram_reset_then_cycle_witness :
    sampleConsts.WellFormed ∧
      (run_resume_cycle sampleConsts ⟨20000000, 27000000⟩
        (resume_latency_metrics_store sampleConsts 1
          (run_resume_cycles sampleConsts [⟨1000000, 6000000⟩, ⟨10000000, 310000000⟩]
            Globals.init)).1).resume_latency_stats.resume_latency_sum_ms = 7 ∧
      resume_count_total sampleConsts
        (run_resume_cycle sampleConsts ⟨20000000, 27000000⟩
          (resume_latency_metrics_store sampleConsts 1
            (run_resume_cycles sampleConsts [⟨1000000, 6000000⟩, ⟨10000000, 310000000⟩]
              Globals.init)).1).resume_latency_stats = 1 := by
  have h := (histogram_reset_then_cycle sampleConsts (by decide)).2
    (run_resume_cycles sampleConsts [⟨1000000, 6000000⟩, ⟨10000000, 310000000⟩] Globals.init)
    1 ⟨20000000, 27000000⟩ 7 (by decide) (by decide)
  exact ⟨by decide, h.2.1, h.1⟩

/-! ### Order independence of the running maximum -/

/-- A soft end call leaves the start table as it was. -/
theorem hook_softirq_end_softirq_start (K : Consts) (cpu vec_nr : Nat) (now : Int)
    (g : Globals) :
    (hook_softirq_end K cpu vec_nr now g).long_irq_stat.softirq_start =
      g.long_irq_stat.softirq_start := by
  by_cases h : vec_nr < K.NR_SOFTIRQS
  · rw [hook_softirq_end_in_range K cpu vec_nr now g h]
  · rw [hook_softirq_end_out_of_range K cpu vec_nr now g (by omega)]

/-- A hard end call leaves the start table as it was. -/
theorem hook_irq_end_irq_start (K : Consts) (cpu : Nat) (irq now : Int) (g : Globals) :
    (hook_irq_end K cpu irq now g).long_irq_stat.irq_start = g.long_irq_stat.irq_start := by
  by_cases h : irq < K.MAX_IRQ_NUM
  · rw [hook_irq_end_in_range K cpu irq now g h]
  · rw [hook_irq_end_above_range K cpu irq now g (by omega)]

/-- The durations measured by a list of soft end calls do not depend on the
order of the calls. -/
theorem softirq_ends_usec_eq_map (K : Consts) :
    ∀ (calls : List softirq_call) (g : Globals),
      softirq_ends_usec K calls g =
        calls.map (fun c => softirq_usec K c.cpu c.vec_nr c.now g) := by
  intro calls
  induction calls with
  | nil => intro g; rfl
  | cons c cs ih =>
    intro g
    simp only [softirq_ends_usec, List.map_cons]
    rw [ih]
    congr 1
    apply List.map_congr_left
    intro x _
    simp only [softirq_usec, hook_softirq_end_softirq_start]

/-- The durations measured by a list of hard end calls do not depend on the
order of the calls. -/
theorem irq_ends_usec_eq_map (K : Consts) :
    ∀ (calls : List irq_call) (g : Globals),
      irq_ends_usec K calls g = calls.map (fun c => irq_usec K c.cpu c.irq c.now g) := by
  intro calls
  induction calls with
  | nil => intro g; rfl
  | cons c cs ih =>
    intro g
    simp only [irq_ends_usec, List.map_cons]
    rw [ih]
    congr 1
    apply List.map_congr_left
    intro x _
    simp only [irq_usec, hook_irq_end_irq_start]

theorem foldl_max_perm {l1 l2 : List Int} (p : l1.Perm l2) (m : Int) :
    l1.foldl max m = l2.foldl max m := by
  induction p generalizing m with
  | nil => rfl
  | cons x _ ih => simp only [List.foldl_cons]; exact ih _
  | swap x y l =>
    simp only [List.foldl_cons]
    rw [max_assoc, max_comm y x, ← max_assoc]
  | trans _ _ ih1 ih2 => exact (ih1 m).trans (ih2 m)

/-- C12: when the end calls run one after another, the final running maximum of
a line does not depend on their order: for every state (every initial
`running_max[line]`) and every list of in-range end calls for the line, every
permutation of the list measures the same durations and leaves the same
`running_max[line]`.  Two calls measuring 100 and 300 from a running maximum of
0 leave 300 in either order.  This holds for the soft and for the hard
tracker. -/
theorem running_max_order_independent (K : Consts) :
    (∀ (g : Globals) (vec_nr : Nat) (calls calls2 : List softirq_call),
      vec_nr < K.NR_SOFTIRQS → (∀ c ∈ calls, c.vec_nr = vec_nr) → calls.Perm calls2 →
      (softirq_ends_usec K calls g).Perm (softirq_ends_usec K calls2 g) ∧
        (run_softirq_ends K calls g).long_irq_stat.long_softirq_arr vec_nr =
          (run_softirq_ends K calls2 g).long_irq_stat.long_softirq_arr vec_nr) ∧
    (∀ (g : Globals) (irq : Int) (calls calls2 : List irq_call),
      0 ≤ irq → irq < K.MAX_IRQ_NUM → (∀ c ∈ calls, c.irq = irq) → calls.Perm calls2 →
      (irq_ends_usec K calls g).Perm (irq_ends_usec K calls2 g) ∧
        (run_irq_ends K calls g).long_irq_stat.long_irq_arr irq =
          (run_irq_ends K calls2 g).long_irq_stat.long_irq_arr irq) ∧
    (∀ (g : Globals) (vec_nr : Nat) (c1 c2 : softirq_call),
      vec_nr < K.NR_SOFTIRQS → c1.vec_nr = vec_nr → c2.vec_nr = vec_nr →
      g.long_irq_stat.long_softirq_arr vec_nr = 0 →
      softirq_usec K c1.cpu c1.vec_nr c1.now g = 100 →
      softirq_usec K c2.cpu c2.vec_nr c2.now g = 300 →
      (run_softirq_ends K [c1, c2] g).long_irq_stat.long_softirq_arr vec_nr = 300 ∧
        (run_softirq_ends K [c2, c1] g).long_irq_stat.long_softirq_arr vec_nr = 300) ∧
    (∀ (g : Globals) (irq : Int) (c1 c2 : irq_call),
      0 ≤ irq → irq < K.MAX_IRQ_NUM → c1.irq = irq → c2.irq = irq →
      g.long_irq_stat.long_irq_arr irq = 0 →
      irq_usec K c1.cpu c1.irq c1.now g = 100 →
      irq_usec K c2.cpu c2.irq c2.now g = 300 →
      (run_irq_ends K [c1, c2] g).long_irq_stat.long_irq_arr irq = 300 ∧
        (run_irq_ends K [c2, c1] g).long_irq_stat.long_irq_arr irq = 300) := by
  refine ⟨?_, ?_, ?_, ?_⟩
  · intro g vec_nr calls calls2 hv hc hp
    have hc2 : ∀ c ∈ calls2, c.vec_nr = vec_nr := fun c hm => hc c (hp.mem_iff.mpr hm)
    have hperm : (softirq_ends_usec K calls g).Perm (softirq_ends_usec K calls2 g) := by
      rw [softirq_ends_usec_eq_map, softirq_ends_usec_eq_map]
      exact hp.map _
    refine ⟨hperm, ?_⟩
    rw [run_softirq_ends_max K vec_nr hv calls g hc, run_softirq_ends_max K vec_nr hv calls2 g hc2]
    exact foldl_max_perm hperm _
  · intro g irq calls calls2 _ hv hc hp
    have hc2 : ∀ c ∈ calls2, c.irq = irq := fun c hm => hc c (hp.mem_iff.mpr hm)
    have hperm : (irq_ends_usec K calls g).Perm (irq_ends_usec K calls2 g) := by
      rw [irq_ends_usec_eq_map, irq_ends_usec_eq_map]
      exact hp.map _
    refine ⟨hperm, ?_⟩
    rw [run_irq_ends_max K irq hv calls g hc, run_irq_ends_max K irq hv calls2 g hc2]
    exact foldl_max_perm hperm _
  · intro g vec_nr c1 c2 hv h1 h2 h0 d1 d2
    have hc12 : ∀ c ∈ [c1, c2], c.vec_nr = vec_nr := by
      intro c hc
      simp only [List.mem_cons, List.mem_singleton, List.not_mem_nil, or_false] at hc
      rcases hc with rfl | rfl <;> assumption
    have hc21 : ∀ c ∈ [c2, c1], c.vec_nr = vec_nr := by
      intro c hc
      simp only [List.mem_cons, List.mem_singleton, List.not_mem_nil, or_false] at hc
      rcases hc with rfl | rfl <;> assumption
    rw [run_softirq_ends_max K vec_nr hv _ g hc12, run_softirq_ends_max K vec_nr hv _ g hc21,
      softirq_ends_usec_eq_map, softirq_ends_usec_eq_map, h0]
    simp only [List.map_cons, List.map_nil, d1, d2, List.foldl_cons, List.foldl_nil]
    exact ⟨by decide, by decide⟩
  · intro g irq c1 c2 _ hv h1 h2 h0 d1 d2
    have hc12 : ∀ c ∈ [c1, c2], c.irq = irq := by
      intro c hc
      simp only [List.mem_cons, List.mem_singleton, List.not_mem_nil, or_false] at hc
      rcases hc with rfl | rfl <;> assumption
    have hc21 : ∀ c ∈ [c2, c1], c.irq = irq := by
      intro c hc
      simp only [List.mem_cons, List.mem_singleton, List.not_mem_nil, or_false] at hc
      rcases hc with rfl | rfl <;> assumption
    rw [run_irq_ends_max K irq hv _ g hc12, run_irq_ends_max K irq hv _ g hc21,
      irq_ends_usec_eq_map, irq_ends_usec_eq_map, h0]
    simp only [List.map_cons, List.map_nil, d1, d2, List.foldl_cons, List.foldl_nil]
    exact ⟨by decide, by decide⟩

/-- From the load-time state, soft end calls for vector 3 at clocks 100 us and
300 us leave `long_softirq_arr[3] == 300` in either order. -/
theorem running_max_order_independent_witness :
    (run_softirq_ends sampleConsts [⟨0, 3, 100000⟩, ⟨1, 3, 300000⟩]
        Globals.init).long_irq_stat.long_softirq_arr ((3 : Nat) : Int) = 300 ∧
      (run_softirq_ends sampleConsts [⟨1, 3, 300000⟩, ⟨0, 3, 100000⟩]
        Globals.init).long_irq_stat.long_softirq_arr ((3 : Nat) : Int) = 300 :=
  (running_max_order_independent sampleConsts).2.2.1 Globals.init 3
    ⟨0, 3, 100000⟩ ⟨1, 3, 300000⟩ (by decide) rfl rfl rfl (by decide) (by decide)

/-! ### Initialisation -/

/-- When `perf_metrics_init` returns 0: a folder was returned, and either a
`sysfs_create_group` call failed or every later step succeeded. -/
theorem perf_metrics_init_returns_zero_iff (o : init_outcomes) (g : Globals) :
    (perf_metrics_init o g).2 = 0 ↔
      o.primary_sysfs_folder = true ∧
        (o.resume_latency_group ≠ 0 ∨ o.irq_group ≠ 0 ∨
          (o.early_resume_begin = 0 ∧ o.resume_end = 0 ∧ o.softirq_entry = 0 ∧
            o.softirq_exit = 0 ∧ o.irq_handler_entry = 0 ∧ o.irq_handler_exit = 0)) := by
  unfold perf_metrics_init EINVAL
  cases hf : o.primary_sysfs_folder
  · simp
  · simp only [Bool.true_eq_false, if_false, true_and]
    by_cases h1 : o.resume_latency_group = 0
    · by_cases h2 : o.irq_group = 0
      · by_cases h3 : o.early_resume_begin = 0
        · by_cases h4 : o.resume_end = 0
          · by_cases h5 : o.softirq_entry = 0
            · by_cases h6 : o.softirq_exit = 0
              · by_cases h7 : o.irq_handler_entry = 0
                · by_cases h8 : o.irq_handler_exit = 0 <;> simp [h1, h2, h3, h4, h5, h6, h7, h8]
                · simp [h1, h2, h3, h4, h5, h6, h7]
              · simp [h1, h2, h3, h4, h5, h6]
            · simp [h1, h2, h3, h4, h5]
          · simp [h1, h2, h3, h4]
        · simp [h1, h2, h3]
      · simp [h1, h2]
    · simp [h1]

/-- C13, evaluated: when the folder is created and `sysfs_create_group` for the
`resume_latency` group fails (here with -12), a step has failed and
`perf_metrics_init` returns 0; the same happens when the first group is created
and the `irq` group fails.  A missing folder returns `-EINVAL` and a failing
registration returns its error code. -/
theorem perf_metrics_init_group_failure :
    init_outcomes.some_step_fails ⟨true, -12, 0, 0, 0, 0, 0, 0, 0⟩ = true ∧
      (perf_metrics_init ⟨true, -12, 0, 0, 0, 0, 0, 0, 0⟩ Globals.init).2 = 0 ∧
      init_outcomes.some_step_fails ⟨true, 0, -12, 0, 0, 0, 0, 0, 0⟩ = true ∧
      (perf_metrics_init ⟨true, 0, -12, 0, 0, 0, 0, 0, 0⟩ Globals.init).2 = 0 ∧
      (perf_metrics_init ⟨false, 0, 0, 0, 0, 0, 0, 0, 0⟩ Globals.init).2 = -22 ∧
      (perf_metrics_init ⟨true, 0, 0, 0, 0, -16, 0, 0, 0⟩ Globals.init).2 = -16 := by
  refine ⟨by decide, by decide, by decide, by decide, by decide, by decide⟩

/-! ### Bucket boundaries -/

/-- C14: under the relations between the constants (in particular
`LATENCY_CNT_SMALL = RESUME_LATENCY_BOUND_SMALL / RESUME_LATENCY_STEP_SMALL`
with no remainder), for every `k` with `0 <= k < LATENCY_CNT_SMALL` the
duration `k * RESUME_LATENCY_STEP_SMALL` is classified into bucket `k`, and the
duration `RESUME_LATENCY_BOUND_SMALL` into bucket `LATENCY_CNT_SMALL`, the
first bucket of the mid region. -/
theorem resume_latency_index_at_boundaries (K : Consts) (hK : K.WellFormed) :
    (∀ k : Int, 0 ≤ k → k < K.LATENCY_CNT_SMALL →
      resume_latency_index K (k * K.RESUME_LATENCY_STEP_SMALL) = k) ∧
    resume_latency_index K K.RESUME_LATENCY_BOUND_SMALL = K.LATENCY_CNT_SMALL := by
  obtain ⟨p1, p2, p3⟩ := hK.products
  have h1 := hK.1
  have h2 := hK.2.1
  have h3 := hK.2.2.1
  have h4 := hK.2.2.2.1
  constructor
  · intro k k0 k1
    have hd0 : 0 ≤ k * K.RESUME_LATENCY_STEP_SMALL := mul_nonneg k0 h4.le
    have hdlt : k * K.RESUME_LATENCY_STEP_SMALL < K.RESUME_LATENCY_BOUND_SMALL := by
      rw [← p1]
      exact mul_lt_mul_of_pos_right k1 h4
    have hq : Int.tdiv (k * K.RESUME_LATENCY_STEP_SMALL) K.RESUME_LATENCY_STEP_SMALL = k := by
      rw [Int.tdiv_eq_ediv hd0 h4.le]
      exact Int.mul_ediv_cancel k (by omega)
    rcases resume_latency_index_cases hK _ hd0 with
      ⟨a, e, b0, b1⟩ | ⟨a0, a, e, b0, b1⟩ | ⟨a0, a, e, b0, b1⟩ | ⟨a, e⟩
    · rw [e, hq]
    · omega
    · omega
    · omega
  · have hq : Int.tdiv (K.RESUME_LATENCY_BOUND_SMALL - K.RESUME_LATENCY_BOUND_SMALL)
        K.RESUME_LATENCY_STEP_MID = 0 := by
      rw [sub_self]
      exact Int.zero_tdiv _
    rcases resume_latency_index_cases hK K.RESUME_LATENCY_BOUND_SMALL h1.le with
      ⟨a, e, b0, b1⟩ | ⟨a0, a, e, b0, b1⟩ | ⟨a0, a, e, b0, b1⟩ | ⟨a, e⟩
    · omega
    · rw [e, hq]
      omega
    · omega
    · omega

/-- With the sample constants the duration 30 = 3 * 10 falls into bucket 3. -/
theorem resume_latency_index_at_boundaries_witness :
    sampleConsts.WellFormed ∧ resume_latency_index sampleConsts (3 * 10) = 3 :=
  ⟨by decide,
    (resume_latency_index_at_boundaries sampleConsts (by decide)).1 3 (by decide) (by decide)⟩

/-- C19: under the relations between the constants, for every duration `d > 0`
the index computed by `vendor_hook_resume_end` is a declared cell of
`resume_count`, `0 <= index < RESUME_LATENCY_ARR_SIZE`, and it is the last
cell, `RESUME_LATENCY_ARR_SIZE - 1`, exactly when
`d >= RESUME_LATENCY_BOUND_MAX`. -/
theorem resume_latency_index_within_array (K : Consts) (hK : K.WellFormed) (d : Int)
    (hd : 0 < d) :
    0 ≤ resume_latency_index K d ∧
      resume_latency_index K d < K.RESUME_LATENCY_ARR_SIZE ∧
      (resume_latency_index K d = K.RESUME_LATENCY_ARR_SIZE - 1 ↔
        K.RESUME_LATENCY_BOUND_MAX ≤ d) := by
  obtain ⟨cS, cM, cL⟩ := hK.counts_pos
  have hA := hK.2.2.2.2.2.2.2.2.2.2.2.2.1
  have h1 := hK.1
  have h2 := hK.2.1
  have h3 := hK.2.2.1
  rcases resume_latency_index_cases hK d hd.le with
    ⟨a, e, b0, b1⟩ | ⟨a0, a, e, b0, b1⟩ | ⟨a0, a, e, b0, b1⟩ | ⟨a, e⟩ <;>
  refine ⟨by omega, by omega, ?_⟩ <;> constructor <;> intro _ <;> omega

/-- With the sample constants (36 cells) the duration 1000 has the index 35. -/
theorem resume_latency_index_within_array_witness :
    sampleConsts.WellFormed ∧ resume_latency_index sampleConsts 1000 = 36 - 1 :=
  ⟨by decide,
    (resume_latency_index_within_array sampleConsts (by decide) 1000 (by decide)).2.2.mpr
      (by decide)⟩

/-! ### The warning flag -/

/-- C15: a write to `display_warning` whose input parses to 0 clears the flag,
one whose input parses to 1 sets it, and every other input (another integer, or
text that does not parse) leaves it; in every case the byte count is returned
and no other field of the globals (thresholds, counters, running maxima, start
tables, histogram) changes. -/
theorem display_warning_store_effect (g : Globals) (count : Nat) :
    display_warning_store (some 0) count g =
        ({ g with long_irq_stat := { g.long_irq_stat with display_warning := false } },
          count) ∧
      display_warning_store (some 1) count g =
        ({ g with long_irq_stat := { g.long_irq_stat with display_warning := true } },
          count) ∧
      (∀ parsed : Option Int, parsed ≠ some 0 → parsed ≠ some 1 →
        display_warning_store parsed count g = (g, count)) := by
  refine ⟨by simp [display_warning_store], by simp [display_warning_store], ?_⟩
  intro parsed h0 h1
  cases parsed with
  | none => rfl
  | some v =>
    have hv0 : ¬ v = 0 := fun h => h0 (by rw [h])
    have hv1 : ¬ v = 1 := fun h => h1 (by rw [h])
    simp [display_warning_store, hv0, hv1]

/-- Writing 2 to `display_warning` after writing 1 leaves the flag set. -/
theorem display_warning_store_effect_witness :
    (display_warning_store (some 2) 2
      (display_warning_store (some 1) 2 Globals.init).1).1.long_irq_stat.display_warning
      = true := by
  have h := (display_warning_store_effect (display_warning_store (some 1) 2 Globals.init).1
    2).2.2 (some 2) (by decide) (by decide)
  rw [h]
  decide

/-! ### Frame of the end handlers -/

/-- C17: an in-range soft end call for the vector `v` changes no field of the
hard category (`irq_start`, `irq_end`, `long_irq_arr`, `long_irq_count`,
`long_irq_threshold`) and no `long_softirq_arr[w]` with `w != v`; an in-range
hard end call for the line `i` changes no field of the soft category
(`softirq_start`, `softirq_end`, `long_softirq_arr`, `long_softirq_count`,
`long_softirq_threshold`) and no `long_irq_arr[j]` with `j != i`; neither
changes a threshold or the warning flag. -/
theorem end_handlers_do_not_interfere (K : Consts) (g : Globals) (cpu : Nat) (now : Int) :
    (∀ v : Nat, v < K.NR_SOFTIRQS →
      (hook_softirq_end K cpu v now g).long_irq_stat.irq_start = g.long_irq_stat.irq_start ∧
      (hook_softirq_end K cpu v now g).long_irq_stat.irq_end = g.long_irq_stat.irq_end ∧
      (hook_softirq_end K cpu v now g).long_irq_stat.long_irq_arr =
        g.long_irq_stat.long_irq_arr ∧
      (hook_softirq_end K cpu v now g).long_irq_stat.long_irq_count =
        g.long_irq_stat.long_irq_count ∧
      (hook_softirq_end K cpu v now g).long_irq_stat.long_irq_threshold =
        g.long_irq_stat.long_irq_threshold ∧
      (∀ w : Int, w ≠ v →
        (hook_softirq_end K cpu v now g).long_irq_stat.long_softirq_arr w =
          g.long_irq_stat.long_softirq_arr w) ∧
      (hook_softirq_end K cpu v now g).long_irq_stat.long_softirq_threshold =
        g.long_irq_stat.long_softirq_threshold ∧
      (hook_softirq_end K cpu v now g).long_irq_stat.display_warning =
        g.long_irq_stat.display_warning) ∧
    (∀ i : Int, 0 ≤ i → i < K.MAX_IRQ_NUM →
      (hook_irq_end K cpu i now g).long_irq_stat.softirq_start =
        g.long_irq_stat.softirq_start ∧
      (hook_irq_end K cpu i now g).long_irq_stat.softirq_end = g.long_irq_stat.softirq_end ∧
      (hook_irq_end K cpu i now g).long_irq_stat.long_softirq_arr =
        g.long_irq_stat.long_softirq_arr ∧
      (hook_irq_end K cpu i now g).long_irq_stat.long_softirq_count =
        g.long_irq_stat.long_softirq_count ∧
      (hook_irq_end K cpu i now g).long_irq_stat.long_softirq_threshold =
        g.long_irq_stat.long_softirq_threshold ∧
      (∀ j : Int, j ≠ i →
        (hook_irq_end K cpu i now g).long_irq_stat.long_irq_arr j =
          g.long_irq_stat.long_irq_arr j) ∧
      (hook_irq_end K cpu i now g).long_irq_stat.long_irq_threshold =
        g.long_irq_stat.long_irq_threshold ∧
      (hook_irq_end K cpu i now g).long_irq_stat.display_warning =
        g.long_irq_stat.display_warning) := by
  constructor
  · intro v hv
    rw [hook_softirq_end_in_range K cpu v now g hv]
    refine ⟨rfl, rfl, rfl, rfl, rfl, fun w hw => ?_, rfl, rfl⟩
    simp only [store, hw, if_false]
  · intro i _ hi
    rw [hook_irq_end_in_range K cpu i now g hi]
    refine ⟨rfl, rfl, rfl, rfl, rfl, fun j hj => ?_, rfl, rfl⟩
    simp only [store, hj, if_false]

/-- A soft end call for vector 3 measuring 300 us leaves `long_irq_count` and
`long_softirq_arr[4]` of the load-time state at 0. -/
theorem end_handlers_do_not_interfere_witness :
    (hook_softirq_end sampleConsts 0 3 300000 Globals.init).long_irq_stat.long_irq_count = 0 ∧
      (hook_softirq_end sampleConsts 0 3 300000 Globals.init).long_irq_stat.long_softirq_arr 4
        = 0 :=
  ⟨((end_handlers_do_not_interfere sampleConsts Globals.init 0 300000).1 3
      (by decide)).2.2.2.1,
    ((end_handlers_do_not_interfere sampleConsts Globals.init 0 300000).1 3
      (by decide)).2.2.2.2.2.1 4 (by decide)⟩

/-! ### The running-maximum loop under interleaving -/

theorem foldl_max_le (ds : List Int) (m b : Int) (hm : m ≤ b) (h : ∀ d ∈ ds, d ≤ b) :
    ds.foldl max m ≤ b := by
  induction ds generalizing m with
  | nil => exact hm
  | cons x xs ih =>
    exact ih (max m x) (max_le hm (h x (List.mem_cons_self _ _)))
      (fun d hd => h d (List.mem_cons_of_mem _ hd))

/-- The cell array primitive and the one-cell primitive agree. -/
theorem cmpxchg64_cell_eq (a : Int → Int) (i old new : Int) :
    (cmpxchg64 a i old new).1 i = (cmpxchg64_cell (a i) old new).1 ∧
      (cmpxchg64 a i old new).2 = (cmpxchg64_cell (a i) old new).2 := by
  unfold cmpxchg64 cmpxchg64_cell
  refine ⟨?_, rfl⟩
  by_cases h : a i = old
  · simp [h, store]
  · simp [h]

/-- A call that runs alone leaves the loop after its load and its `cmpxchg64`,
with the cell holding the larger of its content and the duration, which is the
value the sequential handlers store. -/
theorem max_config_run_alone (cell d : Int) :
    ((max_config.start cell [d]).run [0, 0]).all_done = true ∧
      ((max_config.start cell [d]).run [0, 0]).cell = max cell d := by
  by_cases h : d < cell
  · simp [max_config.start, max_config.run, max_config.step, max_call.step, max_config.all_done,
      h, max_eq_left h.le]
  · simp [max_config.start, max_config.run, max_config.step, max_call.step, max_config.all_done,
      h, cmpxchg64_cell, max_eq_right (not_lt.mp h)]

theorem map_set_of_eq {α β : Type} (f : α → β) :
    ∀ (l : List α) (i : Nat) (t t2 : α), l[i]? = some t → f t2 = f t →
      (l.set i t2).map f = l.map f := by
  intro l
  induction l with
  | nil => intro i t t2 h _; simp at h
  | cons x xs ih =>
    intro i t t2 h hf
    cases i with
    | zero =>
      simp only [List.getElem?_cons_zero, Option.some.injEq] at h
      subst h
      simp [hf]
    | succ n =>
      simp only [List.getElem?_cons_succ] at h
      simp only [List.set_cons_succ, List.map_cons, ih n t t2 h hf]

/-- Replacing the program point of a call leaves the durations of the calls. -/
theorem calls_set_usec (calls : List max_call) (i : Nat) (t : max_call) (p : max_pc)
    (h : calls[i]? = some t) :
    (calls.set i { irq_usec := t.irq_usec, pc := p }).map (fun t => t.irq_usec) =
      calls.map (fun t => t.irq_usec) :=
  map_set_of_eq _ calls i t _ h rfl

theorem max_config.invariant_start (cell : Int) (ds : List Int) :
    (max_config.start cell ds).invariant cell ds := by
  refine ⟨le_refl _, Or.inl rfl, ?_, ?_⟩
  · simp [max_config.start, Function.comp_def]
  · intro t ht
    simp only [max_config.start, List.mem_map] at ht
    obtain ⟨d, _, rfl⟩ := ht
    exact ⟨fun h => (by cases h), fun curr h => (by cases h)⟩

theorem max_config.invariant_step (cell : Int) (ds : List Int) (c : max_config) (i : Nat)
    (h : c.invariant cell ds) : (c.step i).invariant cell ds := by
  obtain ⟨h1, h2, h3, h4⟩ := h
  unfold max_config.step
  cases hi : c.calls[i]? with
  | none => exact ⟨h1, h2, h3, h4⟩
  | some t =>
    have htm : t ∈ c.calls := List.getElem?_mem hi
    have htd : t.irq_usec ∈ ds := by
      rw [← h3]
      exact List.mem_map.mpr ⟨t, htm, rfl⟩
    obtain ⟨t_usec, t_pc⟩ := t
    simp only at htd
    cases t_pc with
    | load =>
      by_cases hlt : t_usec < c.cell
      · simp only [max_call.step, hlt, if_true]
        unfold max_config.invariant
        dsimp only
        refine ⟨h1, h2, ?_, ?_⟩
        · exact (calls_set_usec _ _ _ _ hi).trans h3
        · intro t2 ht2
          rcases List.mem_or_eq_of_mem_set ht2 with hm | he
          · exact h4 t2 hm
          · subst he
            exact ⟨fun _ => hlt.le, fun curr hc => (by cases hc)⟩
      · simp only [max_call.step, hlt, if_false]
        unfold max_config.invariant
        dsimp only
        refine ⟨h1, h2, ?_, ?_⟩
        · exact (calls_set_usec _ _ _ _ hi).trans h3
        · intro t2 ht2
          rcases List.mem_or_eq_of_mem_set ht2 with hm | he
          · exact h4 t2 hm
          · subst he
            refine ⟨fun hd => (by cases hd), fun curr hc => ?_⟩
            simp only [max_pc.cas.injEq] at hc
            dsimp only
            omega
    | cas curr =>
      have hcurr : curr ≤ t_usec := (h4 _ htm).2 curr rfl
      by_cases heq : c.cell = curr
      · simp only [max_call.step, cmpxchg64_cell, heq, if_true, ne_eq, not_true_eq_false,
          if_false]
        unfold max_config.invariant
        dsimp only
        refine ⟨by omega, Or.inr htd, ?_, ?_⟩
        · exact (calls_set_usec _ _ _ _ hi).trans h3
        · intro t2 ht2
          rcases List.mem_or_eq_of_mem_set ht2 with hm | he
          · refine ⟨fun hd => ?_, (h4 t2 hm).2⟩
            have := (h4 t2 hm).1 hd
            omega
          · subst he
            exact ⟨fun _ => le_refl _, fun c2 hc => (by cases hc)⟩
      · simp only [max_call.step, cmpxchg64_cell, heq, if_false, ne_eq, not_false_eq_true,
          if_true]
        unfold max_config.invariant
        dsimp only
        refine ⟨h1, h2, ?_, ?_⟩
        · exact (calls_set_usec _ _ _ _ hi).trans h3
        · intro t2 ht2
          rcases List.mem_or_eq_of_mem_set ht2 with hm | he
          · exact h4 t2 hm
          · subst he
            exact ⟨fun hd => (by cases hd), fun c2 hc => (by cases hc)⟩
    | done =>
      simp only [max_call.step]
      unfold max_config.invariant
      dsimp only
      refine ⟨h1, h2, ?_, ?_⟩
      · exact (calls_set_usec _ _ _ _ hi).trans h3
      · intro t2 ht2
        rcases List.mem_or_eq_of_mem_set ht2 with hm | he
        · exact h4 t2 hm
        · subst he
          exact h4 _ htm

theorem max_config.invariant_run (cell : Int) (ds : List Int) (schedule : List Nat) :
    ∀ c : max_config, c.invariant cell ds → (c.run schedule).invariant cell ds := by
  induction schedule with
  | nil => intro c h; exact h
  | cons i rest ih =>
    intro c h
    exact ih (c.step i) (max_config.invariant_step cell ds c i h)

/-- Three steps of a call with no step of another call in between make it
return, whatever the cell holds and wherever the call stands. -/
theorem max_call_three_steps (cell : Int) (t : max_call) :
    (((t.step cell).2.step (t.step cell).1).2.step
      ((t.step cell).2.step (t.step cell).1).1).2.pc = .done := by
  obtain ⟨d, pc⟩ := t
  cases pc with
  | load =>
    by_cases h : d < cell
    · simp [max_call.step, h]
    · simp [max_call.step, h, cmpxchg64_cell]
  | cas curr =>
    by_cases h : cell = curr
    · simp [max_call.step, h, cmpxchg64_cell]
    · by_cases h2 : d < cell
      · simp [max_call.step, h, h2, cmpxchg64_cell]
      · simp [max_call.step, h, h2, cmpxchg64_cell]
  | done => simp [max_call.step]

theorem max_config.step_self (c : max_config) (i : Nat) (t : max_call)
    (h : c.calls[i]? = some t) :
    (c.step i).cell = (t.step c.cell).1 ∧ (c.step i).calls[i]? = some (t.step c.cell).2 := by
  have hlen : i < c.calls.length := (List.getElem?_eq_some.mp h).1
  simp only [max_config.step, h, true_and]
  exact List.getElem?_set_self hlen

theorem max_config.step_other (c : max_config) (i j : Nat) (h : i ≠ j) :
    (c.step i).calls[j]? = c.calls[j]? := by
  unfold max_config.step
  cases hi : c.calls[i]? with
  | none => rfl
  | some t => exact List.getElem?_set_ne h

theorem max_config.step_length (c : max_config) (i : Nat) :
    (c.step i).calls.length = c.calls.length := by
  unfold max_config.step
  cases hi : c.calls[i]? with
  | none => rfl
  | some t => simp

/-- Three consecutive steps of the call `i` make it return and leave the other
calls where they stand. -/
theorem max_config.run_three (c : max_config) (i : Nat) (hi : i < c.calls.length) :
    (∃ t, (c.run [i, i, i]).calls[i]? = some t ∧ t.pc = .done) ∧
      (∀ j, j ≠ i → (c.run [i, i, i]).calls[j]? = c.calls[j]?) ∧
      (c.run [i, i, i]).calls.length = c.calls.length := by
  obtain ⟨t, ht⟩ : ∃ t, c.calls[i]? = some t := ⟨c.calls[i], List.getElem?_eq_some.mpr ⟨hi, rfl⟩⟩
  simp only [max_config.run, List.foldl_cons, List.foldl_nil]
  obtain ⟨a1, b1⟩ := max_config.step_self c i t ht
  obtain ⟨a2, b2⟩ := max_config.step_self (c.step i) i _ b1
  obtain ⟨a3, b3⟩ := max_config.step_self ((c.step i).step i) i _ b2
  refine ⟨⟨_, b3, ?_⟩, ?_, ?_⟩
  · rw [a2, a1]
    exact max_call_three_steps c.cell t
  · intro j hj
    rw [max_config.step_other _ i j (Ne.symm hj), max_config.step_other _ i j (Ne.symm hj),
      max_config.step_other _ i j (Ne.symm hj)]
  · rw [max_config.step_length, max_config.step_length, max_config.step_length]

theorem max_config.run_append (c : max_config) (s1 s2 : List Nat) :
    c.run (s1 ++ s2) = (c.run s1).run s2 := by
  simp [max_config.run, List.foldl_append]

/-- The schedule that lets the calls `0 .. n - 1` take three steps each, one
call after the other, makes all of them return. -/
theorem max_config.run_each_alone (c : max_config) :
    ∀ n : Nat, n ≤ c.calls.length →
      ∃ schedule : List Nat,
        (c.run schedule).calls.length = c.calls.length ∧
          ∀ j, j < n → ∃ t, (c.run schedule).calls[j]? = some t ∧ t.pc = .done := by
  intro n
  induction n with
  | zero => intro _; exact ⟨[], rfl, fun j hj => absurd hj (Nat.not_lt_zero j)⟩
  | succ m ih =>
    intro hm
    obtain ⟨s, hlen, hdone⟩ := ih (by omega)
    obtain ⟨⟨t, ht, htd⟩, hother, hlen3⟩ := max_config.run_three (c.run s) m (by omega)
    refine ⟨s ++ [m, m, m], ?_, ?_⟩
    · rw [max_config.run_append, hlen3, hlen]
    · intro j hj
      rw [max_config.run_append]
      by_cases hjm : j = m
      · subst hjm
        exact ⟨t, ht, htd⟩
      · rw [hother j hjm]
        exact hdone j (by omega)

/-- From every configuration some schedule lets all calls return. -/
theorem max_config.exists_all_done (c : max_config) :
    ∃ schedule : List Nat, (c.run schedule).all_done = true := by
  obtain ⟨s, hlen, hdone⟩ := max_config.run_each_alone c c.calls.length (le_refl _)
  refine ⟨s, ?_⟩
  unfold max_config.all_done
  rw [List.all_eq_true]
  intro x hx
  obtain ⟨j, hj⟩ := List.mem_iff_getElem?.mp hx
  have hjlt : j < (c.run s).calls.length := (List.getElem?_eq_some.mp hj).1
  obtain ⟨t, ht, htd⟩ := hdone j (by omega)
  rw [hj] at ht
  injection ht with ht
  subst ht
  exact decide_eq_true htd

/-- C18: for every initial content of `running_max[line]`, every list of
durations `d_1 .. d_k` of concurrent end calls for the line and every
interleaving of their atomic steps (the load and the `cmpxchg64` of the cell),
once all calls have returned the cell holds `max(initial, d_1, .., d_k)`; a
call that returns in a step either read, in that step, a stored value greater
than its duration, or executed, in that step, a `cmpxchg64` that found the
value it had loaded and stored its duration; and every interleaving can be
continued so that all calls return. -/
theorem running_max_under_interleaving :
    (∀ (cell : Int) (ds : List Int) (schedule : List Nat),
      ((max_config.start cell ds).run schedule).all_done = true →
      ((max_config.start cell ds).run schedule).cell = ds.foldl max cell) ∧
    (∀ (cell : Int) (t : max_call), t.pc ≠ .done → (t.step cell).2.pc = .done →
      (t.pc = .load ∧ t.irq_usec < cell ∧ (t.step cell).1 = cell) ∨
        (t.pc = .cas cell ∧ (t.step cell).1 = t.irq_usec)) ∧
    (∀ (cell : Int) (ds : List Int) (schedule : List Nat),
      ∃ more : List Nat,
        ((max_config.start cell ds).run (schedule ++ more)).all_done = true) := by
  refine ⟨?_, ?_, ?_⟩
  · intro cell ds schedule hdone
    obtain ⟨h1, h2, h3, h4⟩ := max_config.invariant_run cell ds schedule _
      (max_config.invariant_start cell ds)
    have hall : ∀ d ∈ ds, d ≤ ((max_config.start cell ds).run schedule).cell := by
      intro d hd
      rw [← h3] at hd
      obtain ⟨t, ht, rfl⟩ := List.mem_map.mp hd
      have hp := (List.all_eq_true.mp hdone) t ht
      exact (h4 t ht).1 (of_decide_eq_true hp)
    apply le_antisymm
    · rcases h2 with h | h
      · rw [h]; exact foldl_max_ge_init ds cell
      · exact foldl_max_ge_mem ds cell _ h
    · exact foldl_max_le ds cell _ h1 hall
  · intro cell t hnd hd
    obtain ⟨t_usec, t_pc⟩ := t
    cases t_pc with
    | load =>
      left
      by_cases hlt : t_usec < cell
      · simp [max_call.step, hlt]
      · simp [max_call.step, hlt] at hd
    | cas curr =>
      right
      by_cases heq : cell = curr
      · simp [max_call.step, cmpxchg64_cell, heq]
      · simp [max_call.step, cmpxchg64_cell, heq] at hd
    | done => exact absurd rfl hnd
  · intro cell ds schedule
    obtain ⟨more, h⟩ := max_config.exists_all_done ((max_config.start cell ds).run schedule)
    exact ⟨more, by rw [max_config.run_append]; exact h⟩

/-- Two calls measuring 100 and 300 on a cell holding 0: both load 0, the
second stores 300, the `cmpxchg64` of the first fails, it loads 300 and returns;
all calls have returned and the cell holds 300. -/
theorem running_max_under_interleaving_witness :
    ((max_config.start 0 [100, 300]).run [0, 1, 1, 0, 0]).all_done = true ∧
      ((max_config.start 0 [100, 300]).run [0, 1, 1, 0, 0]).cell = 300 := by
  have h := running_max_under_interleaving.1 0 [100, 300] [0, 1, 1, 0, 0] (by decide)
  exact ⟨by decide, h.trans (by decide)⟩

/-! ### Printed bucket ranges -/

/-- Truncating division of a non-negative `x` by a positive step `s`: the
quotient `q` satisfies `q * s <= x < q * s + s`. -/
theorem tdiv_mul_bounds {x s : Int} (hx : 0 ≤ x) (hs : 0 < s) :
    Int.tdiv x s * s ≤ x ∧ x < Int.tdiv x s * s + s := by
  rw [Int.tdiv_eq_ediv hx hs.le]
  have h1 := Int.ediv_mul_le x (ne_of_gt hs)
  have h2 := Int.lt_ediv_add_one_mul_self x hs
  constructor
  · exact h1
  · linarith [add_mul (x / s) 1 s]

/-- The row printed for an index of the small region. -/
theorem resume_latency_bucket_range_small {K : Consts} (hK : K.WellFormed)
    (hmax : K.RESUME_LATENCY_BOUND_MAX < 2 ^ 63) (i : Int) (h0 : 0 ≤ i)
    (h1 : i < K.LATENCY_CNT_SMALL) :
    resume_latency_bucket_range K i =
        (i * K.RESUME_LATENCY_STEP_SMALL,
          some (i * K.RESUME_LATENCY_STEP_SMALL + K.RESUME_LATENCY_STEP_SMALL)) ∧
      i * K.RESUME_LATENCY_STEP_SMALL + K.RESUME_LATENCY_STEP_SMALL ≤
        K.RESUME_LATENCY_BOUND_SMALL := by
  obtain ⟨p1, p2, p3⟩ := hK.products
  obtain ⟨b1, b2, b3, s1, s2, s3, -⟩ := hK
  have hnn : 0 ≤ i * K.RESUME_LATENCY_STEP_SMALL := mul_nonneg h0 s1.le
  have hle : i * K.RESUME_LATENCY_STEP_SMALL + K.RESUME_LATENCY_STEP_SMALL ≤
      K.RESUME_LATENCY_BOUND_SMALL := by
    have := mul_le_mul_of_nonneg_right (show i + 1 ≤ K.LATENCY_CNT_SMALL by omega) s1.le
    linarith [add_mul i 1 K.RESUME_LATENCY_STEP_SMALL]
  refine ⟨?_, hle⟩
  unfold resume_latency_bucket_range
  rw [if_pos h1]
  simp only
  rw [wrap_s64_of_range (by omega) (by omega), wrap_s64_of_range (by omega) (by omega)]

/-- The row printed for an index of the mid region. -/
theorem resume_latency_bucket_range_mid {K : Consts} (hK : K.WellFormed)
    (hmax : K.RESUME_LATENCY_BOUND_MAX < 2 ^ 63) (i : Int) (h0 : K.LATENCY_CNT_SMALL ≤ i)
    (h1 : i < K.LATENCY_CNT_SMALL + K.LATENCY_CNT_MID) :
    resume_latency_bucket_range K i =
        (K.RESUME_LATENCY_BOUND_SMALL + K.RESUME_LATENCY_STEP_MID * (i - K.LATENCY_CNT_SMALL),
          some (K.RESUME_LATENCY_BOUND_SMALL +
            K.RESUME_LATENCY_STEP_MID * (i - K.LATENCY_CNT_SMALL) +
            K.RESUME_LATENCY_STEP_MID)) ∧
      K.RESUME_LATENCY_BOUND_SMALL + K.RESUME_LATENCY_STEP_MID * (i - K.LATENCY_CNT_SMALL) +
        K.RESUME_LATENCY_STEP_MID ≤ K.RESUME_LATENCY_BOUND_MID ∧
      0 ≤ K.RESUME_LATENCY_STEP_MID * (i - K.LATENCY_CNT_SMALL) := by
  obtain ⟨p1, p2, p3⟩ := hK.products
  obtain ⟨b1, b2, b3, s1, s2, s3, -⟩ := hK
  have hnn : 0 ≤ K.RESUME_LATENCY_STEP_MID * (i - K.LATENCY_CNT_SMALL) :=
    mul_nonneg s2.le (by omega)
  have hle : K.RESUME_LATENCY_BOUND_SMALL +
      K.RESUME_LATENCY_STEP_MID * (i - K.LATENCY_CNT_SMALL) + K.RESUME_LATENCY_STEP_MID ≤
      K.RESUME_LATENCY_BOUND_MID := by
    have := mul_le_mul_of_nonneg_right
      (show i - K.LATENCY_CNT_SMALL + 1 ≤ K.LATENCY_CNT_MID by omega) s2.le
    linarith [add_mul (i - K.LATENCY_CNT_SMALL) 1 K.RESUME_LATENCY_STEP_MID,
      mul_comm K.RESUME_LATENCY_STEP_MID (i - K.LATENCY_CNT_SMALL)]
  refine ⟨?_, hle, hnn⟩
  unfold resume_latency_bucket_range
  rw [if_neg (by omega), if_pos h1]
  simp only
  rw [wrap_s64_of_range (by omega) (by omega), wrap_s64_of_range (by omega) (by omega)]

/-- The row printed for an index of the large region. -/
theorem resume_latency_bucket_range_large {K : Consts} (hK : K.WellFormed)
    (hmax : K.RESUME_LATENCY_BOUND_MAX < 2 ^ 63) (i : Int)
    (h0 : K.LATENCY_CNT_SMALL + K.LATENCY_CNT_MID ≤ i)
    (h1 : i < K.LATENCY_CNT_SMALL + K.LATENCY_CNT_MID + K.LATENCY_CNT_LARGE) :
    resume_latency_bucket_range K i =
        (K.RESUME_LATENCY_BOUND_MID +
            K.RESUME_LATENCY_STEP_LARGE * (i - (K.LATENCY_CNT_SMALL + K.LATENCY_CNT_MID)),
          some (K.RESUME_LATENCY_BOUND_MID +
            K.RESUME_LATENCY_STEP_LARGE * (i - (K.LATENCY_CNT_SMALL + K.LATENCY_CNT_MID)) +
            K.RESUME_LATENCY_STEP_LARGE)) ∧
      K.RESUME_LATENCY_BOUND_MID +
        K.RESUME_LATENCY_STEP_LARGE * (i - (K.LATENCY_CNT_SMALL + K.LATENCY_CNT_MID)) +
        K.RESUME_LATENCY_STEP_LARGE ≤ K.RESUME_LATENCY_BOUND_MAX ∧
      0 ≤ K.RESUME_LATENCY_STEP_LARGE * (i - (K.LATENCY_CNT_SMALL + K.LATENCY_CNT_MID)) := by
  obtain ⟨p1, p2, p3⟩ := hK.products
  obtain ⟨cS, cM, cL⟩ := hK.counts_pos
  obtain ⟨b1, b2, b3, s1, s2, s3, -⟩ := hK
  have hnn : 0 ≤ K.RESUME_LATENCY_STEP_LARGE *
      (i - (K.LATENCY_CNT_SMALL + K.LATENCY_CNT_MID)) := mul_nonneg s3.le (by omega)
  have hle : K.RESUME_LATENCY_BOUND_MID +
      K.RESUME_LATENCY_STEP_LARGE * (i - (K.LATENCY_CNT_SMALL + K.LATENCY_CNT_MID)) +
      K.RESUME_LATENCY_STEP_LARGE ≤ K.RESUME_LATENCY_BOUND_MAX := by
    have := mul_le_mul_of_nonneg_right
      (show i - (K.LATENCY_CNT_SMALL + K.LATENCY_CNT_MID) + 1 ≤ K.LATENCY_CNT_LARGE by omega)
      s3.le
    linarith [add_mul (i - (K.LATENCY_CNT_SMALL + K.LATENCY_CNT_MID)) 1
        K.RESUME_LATENCY_STEP_LARGE,
      mul_comm K.RESUME_LATENCY_STEP_LARGE (i - (K.LATENCY_CNT_SMALL + K.LATENCY_CNT_MID))]
  refine ⟨?_, hle, hnn⟩
  unfold resume_latency_bucket_range
  rw [if_neg (by omega), if_neg (by omega), if_pos h1]
  simp only
  rw [wrap_s64_of_range (by omega) (by omega), wrap_s64_of_range (by omega) (by omega)]

/-- The row printed for the last index. -/
theorem resume_latency_bucket_range_last {K : Consts} (hK : K.WellFormed)
    (hmax : K.RESUME_LATENCY_BOUND_MAX < 2 ^ 63) (i : Int)
    (h0 : K.LATENCY_CNT_SMALL + K.LATENCY_CNT_MID + K.LATENCY_CNT_LARGE ≤ i) :
    resume_latency_bucket_range K i = (K.RESUME_LATENCY_BOUND_MAX, none) := by
  obtain ⟨cS, cM, cL⟩ := hK.counts_pos
  obtain ⟨b1, b2, b3, -⟩ := hK
  unfold resume_latency_bucket_range
  rw [if_neg (by omega), if_neg (by omega), if_neg (by omega),
    wrap_s64_of_range (by omega) (by omega)]

/-- C20: under the relations between the constants (and with
`RESUME_LATENCY_BOUND_MAX` an `s64`, as `lower_bound` is), the range printed by
`resume_latency_metrics_show` for the index `i` into which
`vendor_hook_resume_end` classifies a duration `d > 0` contains `d`:
`lower_bound(i) <= d < upper_bound(i)` when `i` is not the last index, and
`lower_bound(i) == RESUME_LATENCY_BOUND_MAX <= d` (with no upper bound printed)
when it is; and the printed ranges are ascending and contiguous:
`lower_bound(0) == 0` and `upper_bound(i) == lower_bound(i + 1)` for every
`0 <= i < RESUME_LATENCY_ARR_SIZE - 1`. -/
theorem printed_ranges_agree_with_classification (K : Consts) (hK : K.WellFormed)
    (hmax : K.RESUME_LATENCY_BOUND_MAX < 2 ^ 63) :
    (∀ d : Int, 0 < d →
      (resume_latency_index K d ≠ K.RESUME_LATENCY_ARR_SIZE - 1 →
        ∃ upper_bound,
          (resume_latency_bucket_range K (resume_latency_index K d)).2 = some upper_bound ∧
            (resume_latency_bucket_range K (resume_latency_index K d)).1 ≤ d ∧
            d < upper_bound) ∧
      (resume_latency_index K d = K.RESUME_LATENCY_ARR_SIZE - 1 →
        (resume_latency_bucket_range K (resume_latency_index K d)).1 =
            K.RESUME_LATENCY_BOUND_MAX ∧
          (resume_latency_bucket_range K (resume_latency_index K d)).2 = none ∧
          K.RESUME_LATENCY_BOUND_MAX ≤ d)) ∧
    (resume_latency_bucket_range K 0).1 = 0 ∧
    (∀ i : Int, 0 ≤ i → i < K.RESUME_LATENCY_ARR_SIZE - 1 →
      (resume_latency_bucket_range K i).2 =
        some (resume_latency_bucket_range K (i + 1)).1) := by
  obtain ⟨p1, p2, p3⟩ := hK.products
  obtain ⟨cS, cM, cL⟩ := hK.counts_pos
  have b1 := hK.1
  have b2 := hK.2.1
  have b3 := hK.2.2.1
  have s1 := hK.2.2.2.1
  have s2 := hK.2.2.2.2.1
  have s3 := hK.2.2.2.2.2.1
  have hA := hK.2.2.2.2.2.2.2.2.2.2.2.2.1
  refine ⟨?_, ?_, ?_⟩
  · intro d hd
    rcases resume_latency_index_cases hK d hd.le with
      ⟨a, e, q0, q1⟩ | ⟨a0, a, e, q0, q1⟩ | ⟨a0, a, e, q0, q1⟩ | ⟨a, e⟩
    · obtain ⟨m1, m2⟩ := tdiv_mul_bounds hd.le s1
      obtain ⟨r, -⟩ := resume_latency_bucket_range_small hK hmax _ q0 q1
      rw [e, r]
      exact ⟨fun _ => ⟨_, rfl, m1, m2⟩, fun h => by omega⟩
    · obtain ⟨m1, m2⟩ := tdiv_mul_bounds (x := d - K.RESUME_LATENCY_BOUND_SMALL) (by omega) s2
      obtain ⟨r, -, -⟩ := resume_latency_bucket_range_mid hK hmax
        (Int.tdiv (d - K.RESUME_LATENCY_BOUND_SMALL) K.RESUME_LATENCY_STEP_MID +
          K.LATENCY_CNT_SMALL) (by omega) (by omega)
      rw [e, r]
      simp only [add_sub_cancel_right]
      refine ⟨fun _ => ⟨_, rfl, ?_, ?_⟩, fun h => by omega⟩
      · linarith [mul_comm K.RESUME_LATENCY_STEP_MID
          (Int.tdiv (d - K.RESUME_LATENCY_BOUND_SMALL) K.RESUME_LATENCY_STEP_MID)]
      · linarith [mul_comm K.RESUME_LATENCY_STEP_MID
          (Int.tdiv (d - K.RESUME_LATENCY_BOUND_SMALL) K.RESUME_LATENCY_STEP_MID)]
    · obtain ⟨m1, m2⟩ := tdiv_mul_bounds (x := d - K.RESUME_LATENCY_BOUND_MID) (by omega) s3
      obtain ⟨r, -, -⟩ := resume_latency_bucket_range_large hK hmax
        (Int.tdiv (d - K.RESUME_LATENCY_BOUND_MID) K.RESUME_LATENCY_STEP_LARGE +
          K.LATENCY_CNT_SMALL + K.LATENCY_CNT_MID) (by omega) (by omega)
      have hsub : Int.tdiv (d - K.RESUME_LATENCY_BOUND_MID) K.RESUME_LATENCY_STEP_LARGE +
          K.LATENCY_CNT_SMALL + K.LATENCY_CNT_MID -
          (K.LATENCY_CNT_SMALL + K.LATENCY_CNT_MID) =
          Int.tdiv (d - K.RESUME_LATENCY_BOUND_MID) K.RESUME_LATENCY_STEP_LARGE := by omega
      rw [e, r, hsub]
      dsimp only
      refine ⟨fun _ => ⟨_, rfl, ?_, ?_⟩, fun h => by omega⟩
      · linarith [mul_comm K.RESUME_LATENCY_STEP_LARGE
          (Int.tdiv (d - K.RESUME_LATENCY_BOUND_MID) K.RESUME_LATENCY_STEP_LARGE)]
      · linarith [mul_comm K.RESUME_LATENCY_STEP_LARGE
          (Int.tdiv (d - K.RESUME_LATENCY_BOUND_MID) K.RESUME_LATENCY_STEP_LARGE)]
    · rw [e, resume_latency_bucket_range_last hK hmax _ (le_refl _)]
      exact ⟨fun h => absurd (by omega) h, fun _ => ⟨rfl, rfl, a⟩⟩
  · rw [(resume_latency_bucket_range_small hK hmax 0 (le_refl _) cS).1]
    simp
  · intro i i0 i1
    by_cases r1 : i < K.LATENCY_CNT_SMALL
    · rw [(resume_latency_bucket_range_small hK hmax i i0 r1).1]
      by_cases r1' : i + 1 < K.LATENCY_CNT_SMALL
      · rw [(resume_latency_bucket_range_small hK hmax (i + 1) (by omega) r1').1]
        simp only [Option.some.injEq]
        ring
      · obtain ⟨r, -, -⟩ := resume_latency_bucket_range_mid hK hmax (i + 1) (by omega) (by omega)
        have hi : i + 1 = K.LATENCY_CNT_SMALL := by omega
        rw [r]
        simp only [Option.some.injEq]
        rw [hi, sub_self, mul_zero, add_zero, ← p1, ← hi]
        ring
    · by_cases r2 : i < K.LATENCY_CNT_SMALL + K.LATENCY_CNT_MID
      · rw [(resume_latency_bucket_range_mid hK hmax i (by omega) r2).1]
        by_cases r2' : i + 1 < K.LATENCY_CNT_SMALL + K.LATENCY_CNT_MID
        · rw [(resume_latency_bucket_range_mid hK hmax (i + 1) (by omega) r2').1]
          simp only [Option.some.injEq]
          ring
        · obtain ⟨r, -, -⟩ := resume_latency_bucket_range_large hK hmax (i + 1) (by omega)
            (by omega)
          have hi : i - K.LATENCY_CNT_SMALL + 1 = K.LATENCY_CNT_MID := by omega
          have hi2 : i + 1 - (K.LATENCY_CNT_SMALL + K.LATENCY_CNT_MID) = 0 := by omega
          rw [r, hi2]
          simp only [Option.some.injEq, mul_zero, add_zero]
          have := congrArg (fun x => x * K.RESUME_LATENCY_STEP_MID) hi
          simp only at this
          linarith [add_mul (i - K.LATENCY_CNT_SMALL) 1 K.RESUME_LATENCY_STEP_MID,
            mul_comm K.RESUME_LATENCY_STEP_MID (i - K.LATENCY_CNT_SMALL)]
      · rw [(resume_latency_bucket_range_large hK hmax i (by omega) (by omega)).1]
        by_cases r3' : i + 1 < K.LATENCY_CNT_SMALL + K.LATENCY_CNT_MID + K.LATENCY_CNT_LARGE
        · rw [(resume_latency_bucket_range_large hK hmax (i + 1) (by omega) r3').1]
          simp only [Option.some.injEq]
          ring
        · rw [resume_latency_bucket_range_last hK hmax (i + 1) (by omega)]
          have hi : i - (K.LATENCY_CNT_SMALL + K.LATENCY_CNT_MID) + 1 = K.LATENCY_CNT_LARGE := by
            omega
          simp only [Option.some.injEq]
          have := congrArg (fun x => x * K.RESUME_LATENCY_STEP_LARGE) hi
          simp only at this
          linarith [add_mul (i - (K.LATENCY_CNT_SMALL + K.LATENCY_CNT_MID)) 1
              K.RESUME_LATENCY_STEP_LARGE,
            mul_comm K.RESUME_LATENCY_STEP_LARGE
              (i - (K.LATENCY_CNT_SMALL + K.LATENCY_CNT_MID))]

/-- With the sample constants the duration 275 falls into the row 250 - 300,
and the row of index 24 ends where the row of index 25 starts. -/
theorem printed_ranges_agree_with_classification_witness :
    sampleConsts.WellFormed ∧
      resume_latency_bucket_range sampleConsts (resume_latency_index sampleConsts 275) =
        (250, some 300) ∧
      (resume_latency_bucket_range sampleConsts 24).2 =
        some (resume_latency_bucket_range sampleConsts (24 + 1)).1 :=
  ⟨by decide, by decide,
    (printed_ranges_agree_with_classification sampleConsts (by decide) (by decide)).2.2 24
      (by decide) (by decide)⟩

/-! ### The running maximum of a line (C3) -/

/-- With a monotonic clock a measured duration is not negative: the start
cell holds 0 or an earlier clock value. -/
theorem ktime_to_us_sub_nonneg (now start : Int) (h0 : 0 ≤ start) (h1 : start ≤ now)
    (h2 : now < 2 ^ 63) : 0 ≤ ktime_to_us (ktime_sub now start) := by
  unfold ktime_to_us ktime_sub
  rw [wrap_s64_of_range (by omega) (by omega), Int.tdiv_eq_ediv (by omega) (by norm_num)]
  omega

/-- C3: for a line in range whose running maximum is 0, after `k >= 1` end calls
for that line measuring the durations `d_1 .. d_k` (which are not negative, the
clock being monotonic), the running maximum of the line is the largest of the
`d_i`: it is one of them and none of them exceeds it.  This holds for the soft
and for the hard tracker. -/
theorem running_max_is_largest_duration (K : Consts) :
    (∀ (g : Globals) (vec_nr : Nat) (calls : List softirq_call),
      vec_nr < K.NR_SOFTIRQS → calls ≠ [] → (∀ c ∈ calls, c.vec_nr = vec_nr) →
      g.long_irq_stat.long_softirq_arr vec_nr = 0 →
      (∀ d ∈ softirq_ends_usec K calls g, 0 ≤ d) →
      (run_softirq_ends K calls g).long_irq_stat.long_softirq_arr vec_nr ∈
          softirq_ends_usec K calls g ∧
        ∀ d ∈ softirq_ends_usec K calls g,
          d ≤ (run_softirq_ends K calls g).long_irq_stat.long_softirq_arr vec_nr) ∧
    (∀ (g : Globals) (irq : Int) (calls : List irq_call),
      0 ≤ irq → irq < K.MAX_IRQ_NUM → calls ≠ [] → (∀ c ∈ calls, c.irq = irq) →
      g.long_irq_stat.long_irq_arr irq = 0 →
      (∀ d ∈ irq_ends_usec K calls g, 0 ≤ d) →
      (run_irq_ends K calls g).long_irq_stat.long_irq_arr irq ∈ irq_ends_usec K calls g ∧
        ∀ d ∈ irq_ends_usec K calls g,
          d ≤ (run_irq_ends K calls g).long_irq_stat.long_irq_arr irq) := by
  constructor
  · intro g vec_nr calls hv hne hc h0 hnn
    have h := run_softirq_ends_max K vec_nr hv calls g hc
    rw [h0] at h
    have hex : ∃ d ∈ softirq_ends_usec K calls g, 0 ≤ d := by
      cases calls with
      | nil => exact absurd rfl hne
      | cons c cs =>
        exact ⟨_, List.mem_cons_self _ _, hnn _ (List.mem_cons_self _ _)⟩
    rw [h]
    exact ⟨foldl_max_eq_or_mem_of_nonneg _ hex, fun d hd => foldl_max_ge_mem _ 0 d hd⟩
  · intro g irq calls _ hv hne hc h0 hnn
    have h := run_irq_ends_max K irq hv calls g hc
    rw [h0] at h
    have hex : ∃ d ∈ irq_ends_usec K calls g, 0 ≤ d := by
      cases calls with
      | nil => exact absurd rfl hne
      | cons c cs =>
        exact ⟨_, List.mem_cons_self _ _, hnn _ (List.mem_cons_self _ _)⟩
    rw [h]
    exact ⟨foldl_max_eq_or_mem_of_nonneg _ hex, fun d hd => foldl_max_ge_mem _ 0 d hd⟩

/-- Two soft end calls for vector 3 at clocks 100 us and 300 us, from the
load-time state, measure 100 and 300, and `long_softirq_arr[3]` ends at one of
them that is at least 300. -/
theorem running_max_is_largest_duration_witness :
    (run_softirq_ends sampleConsts [⟨0, 3, 100000⟩, ⟨1, 3, 300000⟩]
        Globals.init).long_irq_stat.long_softirq_arr ((3 : Nat) : Int) ∈ [100, 300] ∧
      300 ≤ (run_softirq_ends sampleConsts [⟨0, 3, 100000⟩, ⟨1, 3, 300000⟩]
        Globals.init).long_irq_stat.long_softirq_arr ((3 : Nat) : Int) := by
  have hds : softirq_ends_usec sampleConsts [⟨0, 3, 100000⟩, ⟨1, 3, 300000⟩] Globals.init =
      [100, 300] := by decide
  have h := (running_max_is_largest_duration sampleConsts).1 Globals.init 3
    [⟨0, 3, 100000⟩, ⟨1, 3, 300000⟩] (by decide) (List.cons_ne_nil _ _) (by decide) rfl
    (by rw [hds]; decide)
  rw [hds] at h
  exact ⟨h.1, h.2 300 (by decide)⟩

/-! ### An end hook with no begin hook since the last cycle (C5) -/

/-- C5, evaluated: from the load-time state a begin hook at 1 ms and an end hook
at 1.5 ms make a cycle of 0 ms, which leaves the histogram at zero; a second end
hook at 3 ms, with no begin hook since that cycle, changes the histogram:
`resume_latency_sum_ms` goes from 0 to 2, `resume_latency_max_ms` from 0 to 2
and `resume_count[0]` from 0 to 1. -/
theorem resume_end_after_zero_length_cycle :
    (vendor_hook_resume_end sampleConsts 1500000
        (vendor_hook_resume_begin 1000000
          Globals.init)).resume_latency_stats.resume_latency_sum_ms = 0 ∧
      (vendor_hook_resume_end sampleConsts 1500000
        (vendor_hook_resume_begin 1000000
          Globals.init)).resume_latency_stats.resume_latency_max_ms = 0 ∧
      (vendor_hook_resume_end sampleConsts 1500000
        (vendor_hook_resume_begin 1000000
          Globals.init)).resume_latency_stats.resume_count 0 = 0 ∧
      (vendor_hook_resume_end sampleConsts 3000000
        (vendor_hook_resume_end sampleConsts 1500000
          (vendor_hook_resume_begin 1000000
            Globals.init))).resume_latency_stats.resume_latency_sum_ms = 2 ∧
      (vendor_hook_resume_end sampleConsts 3000000
        (vendor_hook_resume_end sampleConsts 1500000
          (vendor_hook_resume_begin 1000000
            Globals.init))).resume_latency_stats.resume_latency_max_ms = 2 ∧
      (vendor_hook_resume_end sampleConsts 3000000
        (vendor_hook_resume_end sampleConsts 1500000
          (vendor_hook_resume_begin 1000000
            Globals.init))).resume_latency_stats.resume_count 0 = 1 := by
  refine ⟨by decide, by decide, by decide, by decide, ?_, by decide⟩
  rfl

/-! ### Begin stores out of range and the running maxima (C16) -/

/-- On the cells of its own table the store on the object is the store of the
array-level handler: the two agree on every cell counted from `irq_start`. -/
theorem hook_irq_begin_object_irq_start (K : Consts) (L : long_irq_layout) (cpu : Nat)
    (irq now : Int) (object : Int → Int) (g : Globals)
    (h : g.long_irq_stat.irq_start = fun c => object (L.irq_start + c)) :
    (hook_irq_begin K cpu irq now g).long_irq_stat.irq_start =
      fun c => hook_irq_begin_object K L cpu irq now object (L.irq_start + c) := by
  funext c
  simp only [hook_irq_begin, hook_irq_begin_object, store, h]
  by_cases hc : c = (cpu : Int) * K.MAX_IRQ_NUM + irq
  · simp [hc]
  · have : ¬ L.irq_start + c = L.irq_start + ((cpu : Int) * K.MAX_IRQ_NUM + irq) := by omega
    simp [hc, this]

/-- On the cells of its own table the store on the object is the store of the
array-level handler: the two agree on every cell counted from
`softirq_start`. -/
theorem hook_softirq_begin_object_softirq_start (K : Consts) (L : long_irq_layout)
    (cpu vec_nr : Nat) (now : Int) (object : Int → Int) (g : Globals)
    (h : g.long_irq_stat.softirq_start = fun c => object (L.softirq_start + c)) :
    (hook_softirq_begin K cpu vec_nr now g).long_irq_stat.softirq_start =
      fun c => hook_softirq_begin_object K L cpu vec_nr now object (L.softirq_start + c) := by
  funext c
  simp only [hook_softirq_begin, hook_softirq_begin_object, store, h]
  by_cases hc : c = (cpu : Int) * K.NR_SOFTIRQS + vec_nr
  · simp [hc]
  · have : ¬ L.softirq_start + c =
        L.softirq_start + ((cpu : Int) * K.NR_SOFTIRQS + vec_nr) := by omega
    simp [hc, this]

/-- Whatever the order of the members, `hook_irq_begin` on cpu 0 for the line
`irq` equal to the distance in cells from `irq_start[0][0]` to
`long_irq_arr[j]` stores the clock into `long_irq_arr[j]`. -/
theorem hook_irq_begin_object_hits_running_max (K : Consts) (L : long_irq_layout)
    (j now : Int) (object : Int → Int) :
    long_irq_arr_at L
      (hook_irq_begin_object K L 0 (L.long_irq_arr + j - L.irq_start) now object) j = now := by
  unfold long_irq_arr_at hook_irq_begin_object store
  have : L.long_irq_arr + j =
      L.irq_start + (((0 : Nat) : Int) * K.MAX_IRQ_NUM + (L.long_irq_arr + j - L.irq_start)) := by
    push_cast
    ring
  rw [if_pos this]

end Metrics
